import Mathlib

/-!
Verification development for `hello` (`src/main.go`).

A shallow embedding of the weather service:

* `F64`: Go `float64` (IEEE 754 binary64, round to nearest even), as value
  level data: NaN, the two infinities, and `(-1)^neg * m * 2^e`.
* `selectLoop`: the `for range w { select { ... } }` loop of
  `multyWeatherProvider.temperature`, driven by the case that each `select`
  takes.
* `multyWeatherProvider.temperature`: the whole call in logical time
  (nanoseconds): goroutines send at the moment their provider returns, the
  context deadline is one second, and a schedule resolves the two sources of
  nondeterminism (which ready case `select` takes, how long an iteration's
  own work lasts).
* `openWeatherMap.temperature`, `weatherUnderground.temperature`: the two
  providers over an `Upstream` that stands for `http.Get` and `encoding/json`.
* `SplitN`, `cityOf`: `strings.SplitN` and the city extraction of the
  `/weather/` handler.
-/

set_option exponentiation.threshold 4096

namespace Hello

/-! ## float64 -/

/-- Go `float64`: `nan`, `inf neg` (negative when `neg`), or the finite value
`(-1)^neg * m * 2^e`. The values of the type proper are the canonical
triples: `m < 2^53`, `-1074 ≤ e ≤ 971`, and `2^52 ≤ m` unless `e = -1074`
(subnormal range; `m = 0` gives the two zeros). -/
inductive F64 where
  | nan : F64
  | inf (neg : Bool) : F64
  | fin (neg : Bool) (m : Nat) (e : Int) : F64
  deriving DecidableEq

namespace F64

/-- The least `k` at or above the given one with `n < 2^(2^k)`, with fuel. -/
def log2Depth : Nat → Nat → Nat → Nat
  | 0, k, _ => k
  | fuel + 1, k, n => if n < 2 ^ (2 ^ k) then k else log2Depth fuel (k + 1) n

/-- Binary search for the highest set bit: `2^acc ≤ n < 2^(acc + 2^k)`. -/
def log2Search : Nat → Nat → Nat → Nat
  | 0, acc, _ => acc
  | k + 1, acc, n =>
    if 2 ^ (acc + 2 ^ k) ≤ n then log2Search k (acc + 2 ^ k) n else log2Search k acc n

/-- Floor of the binary logarithm: `2^(log2 n) ≤ n < 2^(log2 n + 1)` for
`0 < n`, and `log2 0 = 0`. -/
def log2 (n : Nat) : Nat := log2Search (log2Depth n 0 n) 0 n

/-- Shift `M` right by `s` bits, rounding to nearest, ties to even. -/
def rne (M s : Nat) : Nat :=
  let q := M / 2 ^ s
  let r := M % 2 ^ s
  let h := 2 ^ (s - 1)
  if s = 0 then M
  else if r > h ∨ (r = h ∧ q % 2 = 1) then q + 1 else q

/-- Round the exact value `(-1)^neg * M * 2^E` to binary64: 53 significant
bits, least exponent `-1074` (gradual underflow), overflow to infinity. -/
def roundDyadic (neg : Bool) (M : Nat) (E : Int) : F64 :=
  if M = 0 then fin neg 0 (-1074)
  else
    let e : Int := max (E + (log2 M : Int) - 52) (-1074)
    let m : Nat := if e ≤ E then M * 2 ^ (E - e).toNat else rne M (e - E).toNat
    let m1 : Nat := if m = 2 ^ 53 then 2 ^ 52 else m
    let e1 : Int := if m = 2 ^ 53 then e + 1 else e
    if e1 > 971 then inf neg else fin neg m1 e1

/-- Positive zero, the zero value of a `float64` variable and the literal `0`. -/
def zero : F64 := fin false 0 (-1074)

/-- The integer `(-1)^neg * n`. -/
def signed (neg : Bool) (n : Nat) : Int := if neg then -(n : Int) else (n : Int)

/-- Float64 addition (`+`, `+=`): the exact sum over the common exponent,
rounded once; an exact zero sum is `-0` only for `(-0) + (-0)`. -/
def add : F64 → F64 → F64
  | nan, _ => nan
  | _, nan => nan
  | inf s, inf t => if s = t then inf s else nan
  | inf s, fin _ _ _ => inf s
  | fin _ _ _, inf t => inf t
  | fin s1 m1 e1, fin s2 m2 e2 =>
    let e := min e1 e2
    let a : Int := signed s1 (m1 * 2 ^ (e1 - e).toNat)
    let b : Int := signed s2 (m2 * 2 ^ (e2 - e).toNat)
    let z := a + b
    roundDyadic (if z = 0 then s1 && s2 else decide (z < 0)) z.natAbs e

/-- Sign change. -/
def neg : F64 → F64
  | nan => nan
  | inf s => inf (!s)
  | fin s m e => fin (!s) m e

/-- Float64 subtraction (`-`). -/
def sub (x y : F64) : F64 := add x (neg y)

/-- Float64 division (`/`). The quotient of the significands is taken with
more than 64 bits and a sticky bit for the remainder before rounding. -/
def div : F64 → F64 → F64
  | nan, _ => nan
  | _, nan => nan
  | inf _, inf _ => nan
  | inf s, fin t _ _ => inf (xor s t)
  | fin s _ _, inf t => fin (xor s t) 0 (-1074)
  | fin s m1 e1, fin t m2 e2 =>
    if m2 = 0 then (if m1 = 0 then nan else inf (xor s t))
    else
      let k := 64 + log2 m2
      let q := m1 * 2 ^ k / m2
      let r := m1 * 2 ^ k % m2
      roundDyadic (xor s t) (2 * q + (if r = 0 then 0 else 1)) (e1 - e2 - (k : Int) - 1)

/-- Conversion of a natural number, `float64(n)`. -/
def ofNat (n : Nat) : F64 := roundDyadic false n 0

/-- Conversion of an integer, `float64(z)`. -/
def ofInt (z : Int) : F64 := roundDyadic (decide (z < 0)) z.natAbs 0

/-- The constant `1`, as added by `p++`. -/
def one : F64 := ofNat 1

/-- The float64 nearest to the decimal `n / d` (a decimal literal such as
`273.15` is `ofDecimal 27315 100`; both operands must be below `2^53`). -/
def ofDecimal (n d : Nat) : F64 := div (ofNat n) (ofNat d)

/-- Whether the value is a NaN. -/
def isNaN : F64 → Bool
  | nan => true
  | _ => false

instance : Add F64 := ⟨add⟩
instance : Sub F64 := ⟨sub⟩
instance : Div F64 := ⟨div⟩

end F64

/-! ## Strings and errors -/

/-- Go `string`: a sequence of bytes, each byte a number below 256. -/
abbrev GoString := List Nat

/-- The bytes of an ASCII literal. -/
def str (s : String) : GoString := s.toList.map Char.toNat

/-- Go non-nil `error` value; `Option GoError` is `error`, `none` being `nil`. -/
structure GoError where
  msg : String
  deriving DecidableEq

/-! ## The provider interface -/

/-- One completed call `temperature(city)`: the two returned values and the
time (ns) the call took. -/
structure Call where
  elapsed : Nat
  temp : F64
  err : Option GoError
  deriving DecidableEq

/-- Interface `weatherProvider`: `temperature(city string) (float64, error)`;
`none` is a call that never returns. -/
abbrev weatherProvider := GoString → Option Call

/-- Type `multyWeatherProvider []weatherProvider`. -/
abbrev multyWeatherProvider := List weatherProvider

/-! ## The select loop -/

/-- The case a `select` of `multyWeatherProvider.temperature` takes: a value
received from `temps`, one received from `errs`, or `ctx.Done()`. -/
inductive Event where
  | temp (t : F64) : Event
  | err (e : GoError) : Event
  | done : Event
  deriving DecidableEq

/-- Lines 193-205: the loop over the cases taken, one per iteration, with
the running `sum` and `p`; the list ends where `for range w` ends. -/
def selectLoop : List Event → F64 → F64 → F64 × Option GoError
  | [], sum, p => (sum / p, none)
  | Event.temp t :: rest, sum, p => selectLoop rest (sum + t) (p + F64.one)
  | Event.err e :: _, _, _ => (F64.zero, some e)
  | Event.done :: rest, sum, p => selectLoop rest sum p

/-- The running sum `sum += temp` over readings in arrival order, from `acc`. -/
def sumFrom (acc : F64) : List F64 → F64
  | [] => acc
  | t :: rest => sumFrom (acc + t) rest

/-- The counter `p` after `n` executions of `p++`, from `acc`. -/
def countFrom (acc : F64) : Nat → F64
  | 0 => acc
  | n + 1 => countFrom (acc + F64.one) n

/-! ## The call in logical time -/

/-- Nanoseconds in `time.Second`. -/
def Second : Nat := 1000000000

/-- The context timeout of line 175, `1*time.Second`. -/
def timeout : Nat := 1 * Second

/-- The channels `temps` and `errs` with every send of the call, each with
its send time, in send order. At time `t` the buffer of a channel holds the
leading entries sent at or before `t`. Both have capacity `len(w)`, so no
send blocks. -/
structure Chans where
  temps : List (Nat × F64)
  errs : List (Nat × GoError)
  deriving DecidableEq

/-- Enqueue a send made at time `t`; among equal times the goroutine
launched first comes first. -/
def sendAt {α : Type} (t : Nat) (x : α) : List (Nat × α) → List (Nat × α)
  | [] => [(t, x)]
  | (u, y) :: q => if t ≤ u then (t, x) :: (u, y) :: q else (u, y) :: sendAt t x q

/-- Lines 178-185, the goroutine `request(p)`: when the provider returns it
sends the error on `errs`, or else the reading on `temps`. -/
def request (city : GoString) (p : weatherProvider) (ch : Chans) : Chans :=
  match p city with
  | none => ch
  | some c =>
    match c.err with
    | some e => { ch with errs := sendAt c.elapsed e ch.errs }
    | none => { ch with temps := sendAt c.elapsed c.temp ch.temps }

/-- Lines 187-189: one goroutine per provider, all started at time 0. -/
def launch (city : GoString) : multyWeatherProvider → Chans
  | [] => ⟨[], []⟩
  | p :: w => request city p (launch city w)

/-- Send time of the next value of a channel, `d` when there is none. -/
def headTime {α : Type} (d : Nat) : List (Nat × α) → Nat
  | [] => d
  | (t, _) :: _ => t

/-- The time at which a `select` entered at `now` returns: at once when a
case is ready, otherwise at the first send or the deadline `d`. -/
def wake (d now : Nat) (ch : Chans) : Nat :=
  max now (min d (min (headTime d ch.temps) (headTime d ch.errs)))

/-- The value a channel can deliver at time `t`. -/
def recvReady {α : Type} (t : Nat) : List (Nat × α) → Option α
  | [] => none
  | (u, x) :: _ => if u ≤ t then some x else none

/-- The cases of the `select` (lines 194-203) that are ready at time `t`,
in source order. -/
def readyCases (d t : Nat) (ch : Chans) : List Event :=
  ((recvReady t ch.temps).map Event.temp).toList ++
  ((recvReady t ch.errs).map Event.err).toList ++
  (if d ≤ t then [Event.done] else [])

/-- The resolution of what the program leaves open: `pick i` selects among
the ready cases of iteration `i` (Go chooses one at random), `lag i` is the
time iteration `i` spends outside the `select` wait. -/
structure Sched where
  pick : Nat → Nat
  lag : Nat → Nat

/-- The case taken by a `select` that returns at time `t`. -/
def selectCase (d t : Nat) (ch : Chans) (c : Nat) : Event :=
  (readyCases d t ch).getD (c % (readyCases d t ch).length) Event.done

/-- Result of a call: the returned pair, the time of return and the cases
the loop took. -/
structure Run where
  ret : F64 × Option GoError
  finish : Nat
  trace : List Event
  deriving DecidableEq

/-- Lines 191-205 in logical time: `n` iterations remain, iteration `i` is
entered at time `now`. -/
def timedLoop (d : Nat) (s : Sched) : Nat → Nat → Nat → Chans → F64 → F64 → Run
  | 0, _, now, _, sum, p => ⟨(sum / p, none), now, []⟩
  | n + 1, i, now, ch, sum, p =>
    let t := wake d now ch
    match selectCase d t ch (s.pick i) with
    | Event.temp v =>
      let r := timedLoop d s n (i + 1) (t + s.lag i) { ch with temps := ch.temps.tail }
        (sum + v) (p + F64.one)
      { r with trace := Event.temp v :: r.trace }
    | Event.err e => ⟨(F64.zero, some e), t + s.lag i, [Event.err e]⟩
    | Event.done =>
      let r := timedLoop d s n (i + 1) (t + s.lag i) ch sum p
      { r with trace := Event.done :: r.trace }

/-- Method `multyWeatherProvider.temperature` (lines 170-207). -/
def multyWeatherProvider.temperature (w : multyWeatherProvider) (city : GoString)
    (s : Sched) : Run :=
  timedLoop timeout s w.length 0 0 (launch city w) F64.zero F64.zero

/-! ## The two concrete providers -/

/-- The part of `http.Response` the program could read. -/
structure Response where
  StatusCode : Nat
  Body : GoString
  deriving DecidableEq

/-- Struct `weatherData` (lines 110-115); `Kelvin` is `Main.Kelvin`. -/
structure weatherData where
  Name : GoString
  Kelvin : F64
  deriving DecidableEq

/-- The anonymous struct of lines 155-159; `Celsius` is
`Observation.Celsius`. -/
structure observationData where
  Celsius : F64
  deriving DecidableEq

/-- What the program takes from outside: `http.Get` (for a URL: `none` when
the call never returns, else the time it took and either the error or the
response) and `json.NewDecoder(body).Decode(&d)` for the two target structs
(the error, or the filled struct). -/
structure Upstream where
  get : GoString → Option (Nat × Except GoError Response)
  decodeWeatherData : GoString → Except GoError weatherData
  decodeObservation : GoString → Except GoError observationData

/-- Struct `openWeatherMap`. -/
structure openWeatherMap where
  apiKey : GoString

/-- Struct `weatherUnderground`. -/
structure weatherUnderground where
  apiKey : GoString

/-- The URL of line 126. -/
def openWeatherMap.url (w : openWeatherMap) (city : GoString) : GoString :=
  str "http://api.openweathermap.org/data/2.5/weather?appid=" ++ w.apiKey ++ str "q=" ++ city

/-- The URL of line 149. -/
def weatherUnderground.url (w : weatherUnderground) (city : GoString) : GoString :=
  str "http://api.wunderground.com/api/" ++ w.apiKey ++ str "/conditions/q/" ++ city
    ++ str ".json"

/-- Method `openWeatherMap.temperature` (lines 125-141). -/
def openWeatherMap.temperature (up : Upstream) (w : openWeatherMap) : weatherProvider :=
  fun city =>
    match up.get (w.url city) with
    | none => none
    | some (took, Except.error err) => some ⟨took, F64.zero, some err⟩
    | some (took, Except.ok resp) =>
      match up.decodeWeatherData resp.Body with
      | Except.error err => some ⟨took, F64.zero, some err⟩
      | Except.ok d => some ⟨took, d.Kelvin - F64.ofDecimal 27315 100, none⟩

/-- Method `weatherUnderground.temperature` (lines 147-166); the call
starts with `time.Sleep(10 * time.Second)`. -/
def weatherUnderground.temperature (up : Upstream) (w : weatherUnderground) :
    weatherProvider :=
  fun city =>
    match up.get (w.url city) with
    | none => none
    | some (took, Except.error err) => some ⟨10 * Second + took, F64.zero, some err⟩
    | some (took, Except.ok resp) =>
      match up.decodeObservation resp.Body with
      | Except.error _ => some ⟨10 * Second + took, F64.zero, none⟩
      | Except.ok d => some ⟨10 * Second + took, d.Celsius, none⟩

/-- Struct `APIKeys`. -/
structure APIKeys where
  Openweathermap : GoString
  Weatherunderground : GoString

/-- The aggregator `mw` built in `main` (lines 39-42). -/
def mw (up : Upstream) (keys : APIKeys) : multyWeatherProvider :=
  [openWeatherMap.temperature up ⟨keys.Openweathermap⟩,
   weatherUnderground.temperature up ⟨keys.Weatherunderground⟩]

/-! ## City extraction -/

/-- Function `strings.Index(s, sep)`: the position of the first occurrence
of `sep` in `s`; `none` is the result `-1`. -/
def Index : GoString → GoString → Option Nat
  | [], sep => if sep = [] then some 0 else none
  | c :: s, sep =>
    if sep.isPrefixOf (c :: s) then some 0 else (Index s sep).map (fun m => m + 1)

/-- Function `strings.Count(s, sep)` for a non-empty `sep`: the number of
non-overlapping occurrences, counted from the left. -/
def CountAux (sep : GoString) : Nat → GoString → Nat
  | 0, _ => 0
  | fuel + 1, s =>
    match Index s sep with
    | none => 0
    | some m => CountAux sep fuel (s.drop (m + sep.length)) + 1

/-- See `CountAux`; an occurrence takes at least one byte. -/
def Count (s sep : GoString) : Nat := CountAux sep s.length s

/-- The loop of `strings.genSplit`: at most `k` cuts, then the rest. -/
def genSplitLoop (sep : GoString) (sepSave : Nat) : Nat → GoString → List GoString
  | 0, s => [s]
  | k + 1, s =>
    match Index s sep with
    | none => [s]
    | some m => s.take (m + sepSave) :: genSplitLoop sep sepSave k (s.drop (m + sep.length))

/-- Function `strings.genSplit(s, sep, sepSave, n)` of the Go library. The
branch for an empty separator (`explode`, which cuts at UTF-8 boundaries)
is taken as a parameter. -/
def genSplit (explode : GoString → Int → List GoString) (s sep : GoString)
    (sepSave : Nat) (n : Int) : List GoString :=
  if n = 0 then []
  else if sep = [] then explode s n
  else
    let n1 : Nat := if n < 0 then Count s sep + 1 else n.toNat
    let n2 : Nat := if n1 > s.length + 1 then s.length + 1 else n1
    genSplitLoop sep sepSave (n2 - 1) s

/-- Function `strings.SplitN(s, sep, n)`. -/
def SplitN (explode : GoString → Int → List GoString) (s sep : GoString) (n : Int) :
    List GoString :=
  genSplit explode s sep 0 n

/-- Line 71: `city := strings.SplitN(r.URL.Path, "/", 3)[2]`; `none` is the
index-out-of-range panic. -/
def cityOf (explode : GoString → Int → List GoString) (path : GoString) :
    Option GoString :=
  (SplitN explode path (str "/") 3)[2]?

/-! ## Auxiliary definitions for the statements -/

namespace F64

/-- Canonical significand and exponent of a finite binary64 value. -/
def Canonical (m : Nat) (e : Int) : Prop :=
  m < 2 ^ 53 ∧ -1074 ≤ e ∧ e ≤ 971 ∧ (2 ^ 52 ≤ m ∨ e = -1074)

/-- The terms of `F64` that are float64 values: a finite one has a
canonical significand and exponent. -/
def WF : F64 → Prop
  | nan => True
  | inf _ => True
  | fin _ m e => Canonical m e

instance (m : Nat) (e : Int) : Decidable (Canonical m e) := by
  unfold Canonical
  infer_instance

instance (x : F64) : Decidable (WF x) := by
  cases x <;> unfold WF <;> infer_instance

end F64

/-- The outcome of a completed call as the goroutine `request` sends it:
the error on `errs`, or else the reading on `temps`. -/
def sentBy (c : Call) : Event :=
  match c.err with
  | some e => Event.err e
  | none => Event.temp c.temp

/-- Sum of the absolute values of a list of integers. -/
def absSum (zs : List Int) : Nat := (zs.map Int.natAbs).sum

/-- Total of the lags of iterations `i, ..., i + n - 1`. -/
def lagTotal (s : Sched) (i : Nat) : Nat → Nat
  | 0 => 0
  | n + 1 => s.lag i + lagTotal s (i + 1) n

/-! ## Inputs of the concrete checks -/

/-- A provider that returns the reading `v` after `ms` milliseconds. -/
def answers (ms : Nat) (v : F64) : weatherProvider :=
  fun _ => some ⟨ms * 1000000, v, none⟩

/-- A provider that returns the error `e` after `ms` milliseconds. -/
def fails (ms : Nat) (e : GoError) : weatherProvider :=
  fun _ => some ⟨ms * 1000000, F64.zero, some e⟩

/-- A provider whose call never returns. -/
def hangs : weatherProvider := fun _ => none

/-- The schedule that takes the first ready case and spends no time outside
the `select`. -/
def promptly : Sched := ⟨fun _ => 0, fun _ => 0⟩

/-- As `promptly`, but the second iteration (the `fmt.Println` of the
deadline branch in the run below) takes two milliseconds. -/
def slowPrint : Sched := ⟨fun _ => 0, fun i => if i = 1 then 2000000 else 0⟩

/-- A schedule whose first iteration spends two milliseconds after its
receive and whose second `select` takes the second of its ready cases. -/
def lateLoop : Sched := ⟨fun i => if i = 1 then 1 else 0, fun i => if i = 0 then 2000000 else 0⟩

/-- The city of the form in `index`. -/
def chisinau : GoString := str "Chisinau"

/-- An upstream that answers every request after 50 ms with status 401 and
the JSON body of an authentication failure. The body decodes without error:
it has none of the fields of the target structs, which keep their zero
values. -/
def unauthorized : Upstream where
  get := fun _ => some (50000000, Except.ok ⟨401, str "\x7b\"cod\":401\x7d"⟩)
  decodeWeatherData := fun _ => Except.ok ⟨[], F64.zero⟩
  decodeObservation := fun _ => Except.ok ⟨F64.zero⟩

/-- An upstream that answers every request after 50 ms with status 200 and
an HTML page, on which the JSON decoder fails. -/
def htmlPage : Upstream where
  get := fun _ => some (50000000, Except.ok ⟨200, str "<html>"⟩)
  decodeWeatherData := fun _ => Except.error ⟨"invalid character, looking for beginning of value"⟩
  decodeObservation := fun _ => Except.error ⟨"invalid character, looking for beginning of value"⟩

/-! ## float64: exact cases of rounding -/

namespace F64

theorem log2Depth_spec (fuel k n : Nat) (h : n < 2 ^ (2 ^ (k + fuel))) :
    n < 2 ^ (2 ^ (log2Depth fuel k n)) := by
  induction fuel generalizing k with
  | zero => simpa [log2Depth] using h
  | succ f ih =>
    unfold log2Depth
    split_ifs with hk
    · exact hk
    · apply ih
      have : k + 1 + f = k + (f + 1) := by omega
      rw [this]
      exact h

theorem log2Search_spec (k acc n : Nat) (h1 : 2 ^ acc ≤ n) (h2 : n < 2 ^ (acc + 2 ^ k)) :
    2 ^ (log2Search k acc n) ≤ n ∧ n < 2 ^ (log2Search k acc n + 1) := by
  induction k generalizing acc with
  | zero => simpa [log2Search] using ⟨h1, h2⟩
  | succ k ih =>
    unfold log2Search
    split_ifs with hc
    · apply ih _ hc
      have : acc + 2 ^ k + 2 ^ k = acc + 2 ^ (k + 1) := by rw [pow_succ]; omega
      rw [this]
      exact h2
    · exact ih _ h1 (not_le.mp hc)

theorem log2_spec (n : Nat) (hn : 0 < n) : 2 ^ (log2 n) ≤ n ∧ n < 2 ^ (log2 n + 1) := by
  unfold log2
  apply log2Search_spec
  · simpa using hn
  · rw [Nat.zero_add]
    apply log2Depth_spec
    rw [Nat.zero_add]
    calc n < 2 ^ n := Nat.lt_two_pow n
      _ ≤ 2 ^ (2 ^ n) := Nat.pow_le_pow_right (by norm_num) (Nat.lt_two_pow n).le

theorem log2_eq (n a : Nat) (h1 : 2 ^ a ≤ n) (h2 : n < 2 ^ (a + 1)) : log2 n = a := by
  have hn : 0 < n := lt_of_lt_of_le (by positivity) h1
  obtain ⟨h3, h4⟩ := log2_spec n hn
  have ha : a < log2 n + 1 := (Nat.pow_lt_pow_iff_right (by norm_num)).mp (lt_of_le_of_lt h1 h4)
  have hb : log2 n < a + 1 := (Nat.pow_lt_pow_iff_right (by norm_num)).mp (lt_of_le_of_lt h3 h2)
  omega

theorem log2_mul_pow (n j : Nat) (hn : 0 < n) : log2 (n * 2 ^ j) = log2 n + j := by
  obtain ⟨h3, h4⟩ := log2_spec n hn
  apply log2_eq
  · rw [pow_add]; exact Nat.mul_le_mul_right _ h3
  · have : log2 n + j + 1 = (log2 n + 1) + j := by omega
    rw [this, pow_add]
    exact Nat.mul_lt_mul_of_pos_right h4 (by positivity)

theorem rne_mul_pow (m j : Nat) : rne (m * 2 ^ j) j = m := by
  unfold rne
  by_cases hj : j = 0
  · simp [hj]
  · have hp : 0 < 2 ^ j := by positivity
    have hq : m * 2 ^ j / 2 ^ j = m := Nat.mul_div_cancel _ hp
    have hr : m * 2 ^ j % 2 ^ j = 0 := Nat.mul_mod_left _ _
    have hh : 0 < 2 ^ (j - 1) := by positivity
    simp only [hq, hr, if_neg hj]
    rw [if_neg]
    omega

theorem log2_canonical (m : Nat) (e : Int) (hm : 0 < m) (hc : Canonical m e) :
    max (e + (log2 m : Int) - 52) (-1074) = e := by
  obtain ⟨h1, h2, _, h4⟩ := hc
  obtain ⟨h5, h6⟩ := log2_spec m hm
  by_cases hb : 2 ^ 52 ≤ m
  · have : log2 m = 52 := log2_eq m 52 hb (by simpa using h1)
    rw [this]; omega
  · have he : e = -1074 := by
      rcases h4 with h | h
      · exact absurd h hb
      · exact h
    have : log2 m < 52 := (Nat.pow_lt_pow_iff_right (by norm_num)).mp
      (lt_of_le_of_lt h5 (not_le.mp hb))
    omega

theorem roundDyadic_canonical (neg : Bool) (m : Nat) (e : Int) (hm : 0 < m)
    (hc : Canonical m e) : roundDyadic neg m e = fin neg m e := by
  have key := log2_canonical m e hm hc
  obtain ⟨h1, h2, h3, h4⟩ := hc
  unfold roundDyadic
  rw [if_neg (by omega)]
  simp only [key, le_refl, if_true, sub_self, Int.toNat_zero, pow_zero, mul_one]
  rw [if_neg (by omega), if_neg (by omega), if_neg (by omega)]

theorem roundDyadic_up (neg : Bool) (m j : Nat) (e : Int) (hm : 0 < m)
    (hc : Canonical m e) : roundDyadic neg (m * 2 ^ j) (e - j) = fin neg m e := by
  have key := log2_canonical m e hm hc
  obtain ⟨h1, h2, h3, h4⟩ := hc
  have hM : m * 2 ^ j ≠ 0 := by positivity
  have hL := log2_mul_pow m j hm
  have key2 : max (e - (j : Int) + (log2 (m * 2 ^ j) : Int) - 52) (-1074) = e := by
    rw [hL]; push_cast
    have : e - (j : Int) + ((log2 m : Int) + (j : Int)) - 52 = e + (log2 m : Int) - 52 := by ring
    rw [this]; exact key
  unfold roundDyadic
  rw [if_neg hM]
  simp only [key2]
  by_cases hj : j = 0
  · subst hj
    simp only [Nat.cast_zero, sub_zero, le_refl, if_true, sub_self, Int.toNat_zero, pow_zero,
      mul_one]
    rw [if_neg (by omega), if_neg (by omega), if_neg (by omega)]
  · have hlt : ¬ (e ≤ e - (j : Int)) := by omega
    have hs : (e - (e - (j : Int))).toNat = j := by
      have : e - (e - (j : Int)) = (j : Int) := by ring
      rw [this]; exact Int.toNat_natCast j
    simp only [if_neg hlt, hs, rne_mul_pow]
    rw [if_neg (by omega), if_neg (by omega), if_neg (by omega)]

theorem roundDyadic_down (neg : Bool) (M j : Nat) (e : Int) (hM : 0 < M)
    (hc : Canonical (M * 2 ^ j) e) :
    roundDyadic neg M (e + j) = fin neg (M * 2 ^ j) e := by
  have hm : 0 < M * 2 ^ j := by positivity
  have key := log2_canonical _ e hm hc
  obtain ⟨h1, h2, h3, h4⟩ := hc
  have hL := log2_mul_pow M j hM
  have key2 : max (e + (j : Int) + (log2 M : Int) - 52) (-1074) = e := by
    rw [hL] at key; push_cast at key
    have : e + (j : Int) + (log2 M : Int) - 52 = e + ((log2 M : Int) + (j : Int)) - 52 := by ring
    rw [this]; exact key
  unfold roundDyadic
  rw [if_neg (by omega)]
  simp only [key2]
  have hle : e ≤ e + (j : Int) := by omega
  have hs : (e + (j : Int) - e).toNat = j := by
    have : e + (j : Int) - e = (j : Int) := by ring
    rw [this]; exact Int.toNat_natCast j
  simp only [if_pos hle, hs]
  rw [if_neg (by omega), if_neg (by omega), if_neg (by omega)]

theorem canonical_int (n : Nat) (hn : 0 < n) (hb : n < 2 ^ 53) :
    log2 n ≤ 52 ∧ Canonical (n * 2 ^ (52 - log2 n)) ((log2 n : Int) - 52) := by
  obtain ⟨h1, h2⟩ := log2_spec n hn
  have hL : log2 n < 53 := (Nat.pow_lt_pow_iff_right (by norm_num)).mp (lt_of_le_of_lt h1 hb)
  have hL2 : log2 n ≤ 52 := by omega
  have hp : 0 < 2 ^ (52 - log2 n) := by positivity
  have e1 : 2 ^ (log2 n + 1) * 2 ^ (52 - log2 n) = 2 ^ 53 := by
    rw [← pow_add]; congr 1; omega
  have e2 : 2 ^ (log2 n) * 2 ^ (52 - log2 n) = 2 ^ 52 := by
    rw [← pow_add]; congr 1; omega
  refine ⟨hL2, ?_, by omega, by omega, Or.inl ?_⟩
  · rw [← e1]; exact Nat.mul_lt_mul_of_pos_right h2 hp
  · rw [← e2]; exact Nat.mul_le_mul_right _ h1

theorem roundDyadic_int (neg : Bool) (n K : Nat) (hn : 0 < n) (hb : n < 2 ^ 53) :
    roundDyadic neg (n * 2 ^ K) (-(K : Int)) =
      fin neg (n * 2 ^ (52 - log2 n)) ((log2 n : Int) - 52) := by
  obtain ⟨hL, hc⟩ := canonical_int n hn hb
  by_cases hK : 52 - log2 n ≤ K
  · have h1 : n * 2 ^ K = (n * 2 ^ (52 - log2 n)) * 2 ^ (K - (52 - log2 n)) := by
      rw [Nat.mul_assoc, ← pow_add]; congr 2; omega
    have h2 : (-(K : Int)) = ((log2 n : Int) - 52) - ((K - (52 - log2 n) : Nat) : Int) := by
      omega
    rw [h1, h2]
    exact roundDyadic_up neg _ _ _ (by positivity) hc
  · have h1 : n * 2 ^ (52 - log2 n) = (n * 2 ^ K) * 2 ^ (52 - log2 n - K) := by
      rw [Nat.mul_assoc, ← pow_add]; congr 2; omega
    have h2 : (-(K : Int)) = ((log2 n : Int) - 52) + ((52 - log2 n - K : Nat) : Int) := by
      omega
    rw [h1] at hc
    rw [h2, h1]
    exact roundDyadic_down neg _ _ _ (by positivity) hc

theorem ofInt_zero : ofInt 0 = fin false 0 (-1074) := by decide

theorem ofInt_eq (a : Int) (ha : a ≠ 0) (hb : a.natAbs < 2 ^ 53) :
    ofInt a = fin (decide (a < 0)) (a.natAbs * 2 ^ (52 - log2 a.natAbs))
      ((log2 a.natAbs : Int) - 52) := by
  have h := roundDyadic_int (decide (a < 0)) a.natAbs 0 (by omega) hb
  simpa [ofInt] using h

/-- Every integer below `2^53` in absolute value is a float64 with a
non-positive exponent. -/
theorem ofInt_repr (a : Int) (hb : a.natAbs < 2 ^ 53) :
    ∃ k : Nat, ofInt a = fin (decide (a < 0)) (a.natAbs * 2 ^ k) (-(k : Int)) := by
  by_cases ha : a = 0
  · subst ha
    exact ⟨1074, by decide⟩
  · obtain ⟨hL, _⟩ := canonical_int a.natAbs (by omega) hb
    refine ⟨52 - log2 a.natAbs, ?_⟩
    rw [ofInt_eq a ha hb]
    congr 1
    omega

theorem signed_natAbs (a : Int) (n : Nat) :
    signed (decide (a < 0)) (a.natAbs * n) = a * (n : Int) := by
  unfold signed
  by_cases h : a < 0
  · simp only [h, decide_True, if_true]
    push_cast
    rw [abs_of_neg h, neg_mul, neg_neg]
  · simp only [h, decide_False]
    push_cast
    rw [abs_of_nonneg (not_lt.mp h)]

theorem add_ofInt (a b : Int) (ha : a.natAbs < 2 ^ 53) (hb : b.natAbs < 2 ^ 53)
    (hab : (a + b).natAbs < 2 ^ 53) : ofInt a + ofInt b = ofInt (a + b) := by
  obtain ⟨ka, hka⟩ := ofInt_repr a ha
  obtain ⟨kb, hkb⟩ := ofInt_repr b hb
  show F64.add (ofInt a) (ofInt b) = _
  rw [hka, hkb]
  have hmin : min (-(ka : Int)) (-(kb : Int)) = -((max ka kb : Nat) : Int) := by omega
  have hsa : (-(ka : Int) - -((max ka kb : Nat) : Int)).toNat = max ka kb - ka := by omega
  have hsb : (-(kb : Int) - -((max ka kb : Nat) : Int)).toNat = max ka kb - kb := by omega
  have hpa : a.natAbs * 2 ^ ka * 2 ^ (max ka kb - ka) = a.natAbs * 2 ^ (max ka kb) := by
    rw [Nat.mul_assoc, ← pow_add]; congr 2; omega
  have hpb : b.natAbs * 2 ^ kb * 2 ^ (max ka kb - kb) = b.natAbs * 2 ^ (max ka kb) := by
    rw [Nat.mul_assoc, ← pow_add]; congr 2; omega
  simp only [add, hmin, hsa, hsb, hpa, hpb, signed_natAbs]
  have hz : a * ((2 ^ (max ka kb) : Nat) : Int) + b * ((2 ^ (max ka kb) : Nat) : Int)
      = (a + b) * ((2 ^ (max ka kb) : Nat) : Int) := by ring
  rw [hz]
  have hpos : (0 : Int) < ((2 ^ (max ka kb) : Nat) : Int) := by positivity
  by_cases h0 : a + b = 0
  · have hs : (decide (a < 0) && decide (b < 0)) = false := by
      by_cases h1 : a < 0
      · have : ¬ b < 0 := by omega
        simp [this]
      · simp [h1]
    rw [h0]
    simp only [zero_mul, if_true, hs, Int.natAbs_zero]
    simp [roundDyadic, ofInt]
  · have hne : (a + b) * ((2 ^ (max ka kb) : Nat) : Int) ≠ 0 :=
      mul_ne_zero h0 (ne_of_gt hpos)
    have hlt : ((a + b) * ((2 ^ (max ka kb) : Nat) : Int) < 0) ↔ (a + b < 0) := by
      constructor
      · intro h
        by_contra hc
        have : 0 ≤ (a + b) * ((2 ^ (max ka kb) : Nat) : Int) :=
          mul_nonneg (not_lt.mp hc) hpos.le
        omega
      · intro h
        exact mul_neg_of_neg_of_pos h hpos
    have hab2 : ((a + b) * ((2 ^ (max ka kb) : Nat) : Int)).natAbs
        = (a + b).natAbs * 2 ^ (max ka kb) := by
      rw [Int.natAbs_mul, Int.natAbs_ofNat]
    simp only [if_neg hne, hab2, decide_eq_decide.mpr hlt]
    rw [roundDyadic_int _ _ _ (by omega) hab, ofInt_eq _ h0 hab]

end F64

open F64

theorem zero_eq_ofInt : F64.zero = ofInt 0 := by decide

theorem sumFrom_ofInt (zs : List Int) (a : Int) (h : a.natAbs + absSum zs < 2 ^ 53) :
    sumFrom (ofInt a) (zs.map ofInt) = ofInt (a + zs.sum) := by
  induction zs generalizing a with
  | nil => simp [sumFrom]
  | cons z zs ih =>
    have hs : absSum (z :: zs) = z.natAbs + absSum zs := by simp [absSum]
    have htri : (a + z).natAbs ≤ a.natAbs + z.natAbs := Int.natAbs_add_le a z
    rw [hs] at h
    simp only [List.map_cons, sumFrom, List.sum_cons]
    rw [add_ofInt a z (by omega) (by omega) (by omega), ih (a + z) (by omega), add_assoc]

theorem absSum_perm {zs zs' : List Int} (h : zs.Perm zs') : absSum zs = absSum zs' :=
  (h.map Int.natAbs).sum_eq

/-! ### The loop over the cases taken -/

theorem selectLoop_temps_done (rs : List F64) (k : Nat) (sum p : F64) :
    selectLoop (rs.map Event.temp ++ List.replicate k Event.done) sum p =
      (sumFrom sum rs / countFrom p rs.length, none) := by
  induction rs generalizing sum p with
  | nil =>
    induction k with
    | zero => simp [selectLoop, sumFrom, countFrom]
    | succ k ih => simpa [selectLoop, List.replicate_succ] using ih
  | cons r rs ih =>
    simp only [List.map_cons, List.cons_append, selectLoop, sumFrom, List.length_cons, countFrom]
    exact ih _ _

theorem selectLoop_temps (rs : List F64) (sum p : F64) :
    selectLoop (rs.map Event.temp) sum p = (sumFrom sum rs / countFrom p rs.length, none) := by
  simpa using selectLoop_temps_done rs 0 sum p

theorem selectLoop_all_done (evs : List Event) (h : ∀ ev ∈ evs, ev = Event.done)
    (sum p : F64) : selectLoop evs sum p = (sum / p, none) := by
  induction evs with
  | nil => simp [selectLoop]
  | cons ev evs ih =>
    have h1 : ev = Event.done := h ev (List.mem_cons_self _ _)
    subst h1
    simp only [selectLoop]
    exact ih (fun x hx => h x (List.mem_cons_of_mem _ hx))

/-! ### The loop in logical time -/

theorem wake_le (d now : Nat) (ch : Chans) : wake d now ch ≤ max now d := by
  unfold wake
  omega

theorem wake_after_deadline (d now : Nat) (ch : Chans) (h : d ≤ now) :
    wake d now ch = now := by
  unfold wake
  omega

theorem done_ready (d t : Nat) (ch : Chans) (h : d ≤ t) :
    Event.done ∈ readyCases d t ch := by
  simp [readyCases, h]

theorem timedLoop_ret (d : Nat) (s : Sched) (n i now : Nat) (ch : Chans) (sum p : F64) :
    (timedLoop d s n i now ch sum p).ret =
      selectLoop (timedLoop d s n i now ch sum p).trace sum p := by
  induction n generalizing i now ch sum p with
  | zero => simp [timedLoop, selectLoop]
  | succ n ih =>
    simp only [timedLoop]
    split
    · simp only [selectLoop]; exact ih _ _ _ _ _
    · simp [selectLoop]
    · simp only [selectLoop]; exact ih _ _ _ _ _

theorem timedLoop_trace_length (d : Nat) (s : Sched) (n i now : Nat) (ch : Chans)
    (sum p : F64) : (timedLoop d s n i now ch sum p).trace.length ≤ n := by
  induction n generalizing i now ch sum p with
  | zero => simp [timedLoop]
  | succ n ih =>
    simp only [timedLoop]
    split
    · simpa using ih _ _ _ _ _
    · simp
    · simpa using ih _ _ _ _ _

theorem timedLoop_trace_full (d : Nat) (s : Sched) (n i now : Nat) (ch : Chans)
    (sum p : F64) (h : ∀ e, Event.err e ∉ (timedLoop d s n i now ch sum p).trace) :
    (timedLoop d s n i now ch sum p).trace.length = n := by
  induction n generalizing i now ch sum p with
  | zero => simp [timedLoop]
  | succ n ih =>
    simp only [timedLoop] at h ⊢
    split at h
    · simp only [List.length_cons, Nat.add_right_cancel_iff]
      exact ih _ _ _ _ _ (fun e he => h e (List.mem_cons_of_mem _ he))
    · next e he => exact absurd (List.mem_singleton.mpr rfl) (h e)
    · simp only [List.length_cons, Nat.add_right_cancel_iff]
      exact ih _ _ _ _ _ (fun e he => h e (List.mem_cons_of_mem _ he))

theorem timedLoop_finish (d : Nat) (s : Sched) (n i now : Nat) (ch : Chans) (sum p : F64) :
    (timedLoop d s n i now ch sum p).finish ≤ max now d + lagTotal s i n := by
  induction n generalizing i now ch sum p with
  | zero => simp [timedLoop, lagTotal]
  | succ n ih =>
    have hw := wake_le d now ch
    simp only [timedLoop, lagTotal]
    split
    · next v hv =>
      have := ih (i + 1) (wake d now ch + s.lag i) { ch with temps := ch.temps.tail }
        (sum + v) (p + F64.one)
      refine le_trans this ?_
      omega
    · simp only
      omega
    · have := ih (i + 1) (wake d now ch + s.lag i) ch sum p
      refine le_trans this ?_
      omega

theorem getD_mem_or {α : Type} (l : List α) (i : Nat) (x : α) :
    l.getD i x ∈ l ∨ l.getD i x = x := by
  induction l generalizing i with
  | nil => right; simp
  | cons a l ih =>
    cases i with
    | zero => left; simp
    | succ i =>
      rcases ih i with h | h
      · left; simpa using Or.inr h
      · right; simpa using h

theorem selectCase_err (d t : Nat) (ch : Chans) (c : Nat) (e : GoError)
    (h : selectCase d t ch c = Event.err e) : ∃ u, (u, e) ∈ ch.errs ∧ u ≤ t := by
  unfold selectCase at h
  rcases getD_mem_or (readyCases d t ch) (c % (readyCases d t ch).length) Event.done with hm | hm
  · rw [h] at hm
    unfold readyCases at hm
    simp only [List.mem_append, Option.mem_toList, Option.mem_def, Option.map_eq_some'] at hm
    rcases hm with (⟨v, _, hv⟩ | ⟨e', he', hee⟩) | hd
    · cases hv
    · cases hee
      cases hch : ch.errs with
      | nil => simp [hch, recvReady] at he'
      | cons x q =>
        obtain ⟨u, y⟩ := x
        rw [hch] at he'
        simp only [recvReady] at he'
        split_ifs at he' with hu
        cases he'
        exact ⟨u, List.mem_cons_self _ _, hu⟩
    · split_ifs at hd
      · simp at hd
      · simp at hd
  · rw [h] at hm
    cases hm

theorem timedLoop_err_mem (d : Nat) (s : Sched) (n i now : Nat) (ch : Chans) (sum p : F64)
    (e : GoError) (h : Event.err e ∈ (timedLoop d s n i now ch sum p).trace) :
    (timedLoop d s n i now ch sum p).ret = (F64.zero, some e) ∧ ∃ u, (u, e) ∈ ch.errs := by
  induction n generalizing i now ch sum p with
  | zero => simp [timedLoop] at h
  | succ n ih =>
    simp only [timedLoop] at h ⊢
    split at h
    · have h' := ih _ _ _ _ _ (by simpa using h)
      exact h'
    · next e' he' =>
      have : e = e' := by simpa using h
      subst this
      obtain ⟨u, hu, _⟩ := selectCase_err _ _ _ _ _ he'
      exact ⟨rfl, u, hu⟩
    · have h' := ih _ _ _ _ _ (by simpa using h)
      exact h'

theorem mem_sendAt {α : Type} (t : Nat) (x : α) (q : List (Nat × α)) (y : Nat × α)
    (h : y ∈ sendAt t x q) : y = (t, x) ∨ y ∈ q := by
  induction q with
  | nil => simpa [sendAt] using h
  | cons z q ih =>
    obtain ⟨u, v⟩ := z
    simp only [sendAt] at h
    split_ifs at h
    · simpa using h
    · rcases List.mem_cons.mp h with h1 | h1
      · right; rw [h1]; exact List.mem_cons_self _ _
      · rcases ih h1 with h2 | h2
        · left; exact h2
        · right; exact List.mem_cons_of_mem _ h2

theorem launch_errs_mem (city : GoString) (w : multyWeatherProvider) (x : Nat × GoError)
    (h : x ∈ (launch city w).errs) :
    ∃ p ∈ w, ∃ c, p city = some c ∧ c.err = some x.2 ∧ c.elapsed = x.1 := by
  induction w with
  | nil => simp [launch] at h
  | cons p w ih =>
    simp only [launch, request] at h
    cases hp : p city with
    | none =>
      rw [hp] at h
      obtain ⟨q, hq, c, hc⟩ := ih h
      exact ⟨q, List.mem_cons_of_mem _ hq, c, hc⟩
    | some c =>
      rw [hp] at h
      cases hc : c.err with
      | none =>
        simp only [hc] at h
        obtain ⟨q, hq, c', hc'⟩ := ih h
        exact ⟨q, List.mem_cons_of_mem _ hq, c', hc'⟩
      | some e' =>
        simp only [hc] at h
        rcases mem_sendAt _ _ _ _ h with h1 | h1
        · exact ⟨p, List.mem_cons_self _ _, c, hp, by rw [h1, hc], by rw [h1]⟩
        · obtain ⟨q, hq, c', hc'⟩ := ih h1
          exact ⟨q, List.mem_cons_of_mem _ hq, c', hc'⟩

theorem launch_temps_mem (city : GoString) (w : multyWeatherProvider) (x : Nat × F64)
    (h : x ∈ (launch city w).temps) :
    ∃ p ∈ w, ∃ c, p city = some c ∧ c.err = none ∧ c.temp = x.2 ∧ c.elapsed = x.1 := by
  induction w with
  | nil => simp [launch] at h
  | cons p w ih =>
    simp only [launch, request] at h
    cases hp : p city with
    | none =>
      rw [hp] at h
      obtain ⟨q, hq, c, hc⟩ := ih h
      exact ⟨q, List.mem_cons_of_mem _ hq, c, hc⟩
    | some c =>
      rw [hp] at h
      cases hc : c.err with
      | some e' =>
        simp only [hc] at h
        obtain ⟨q, hq, c', hc'⟩ := ih h
        exact ⟨q, List.mem_cons_of_mem _ hq, c', hc'⟩
      | none =>
        simp only [hc] at h
        rcases mem_sendAt _ _ _ _ h with h1 | h1
        · exact ⟨p, List.mem_cons_self _ _, c, hp, hc, by rw [h1], by rw [h1]⟩
        · obtain ⟨q, hq, c', hc'⟩ := ih h1
          exact ⟨q, List.mem_cons_of_mem _ hq, c', hc'⟩

theorem readyCases_ne_nil (d now : Nat) (ch : Chans) :
    readyCases d (wake d now ch) ch ≠ [] := by
  obtain ⟨temps, errs⟩ := ch
  by_cases hd : d ≤ wake d now ⟨temps, errs⟩
  · simp [readyCases, hd]
  · have hw : wake d now ⟨temps, errs⟩ =
        max now (min d (min (headTime d temps) (headTime d errs))) := rfl
    cases temps with
    | nil =>
      cases errs with
      | nil => simp only [headTime] at hw; omega
      | cons y q =>
        obtain ⟨u, e⟩ := y
        simp only [headTime] at hw
        have hu : u ≤ wake d now ⟨[], (u, e) :: q⟩ := by omega
        simp [readyCases, recvReady, hu]
    | cons x q =>
      obtain ⟨u, v⟩ := x
      cases errs with
      | nil =>
        simp only [headTime] at hw
        have hu : u ≤ wake d now ⟨(u, v) :: q, []⟩ := by omega
        simp [readyCases, recvReady, hu]
      | cons y q' =>
        obtain ⟨u', e⟩ := y
        simp only [headTime] at hw
        by_cases hu : u ≤ wake d now ⟨(u, v) :: q, (u', e) :: q'⟩
        · simp [readyCases, recvReady, hu]
        · have hu' : u' ≤ wake d now ⟨(u, v) :: q, (u', e) :: q'⟩ := by omega
          simp [readyCases, recvReady, hu']

/-- A `select` takes one of the cases that are ready when it returns. -/
theorem selectCase_ready (d now : Nat) (ch : Chans) (c : Nat) :
    selectCase d (wake d now ch) ch c ∈ readyCases d (wake d now ch) ch := by
  have hne := readyCases_ne_nil d now ch
  have hpos : 0 < (readyCases d (wake d now ch) ch).length := List.length_pos.mpr hne
  have hlt := Nat.mod_lt c hpos
  unfold selectCase
  rw [List.getD_eq_getElem _ _ hlt]
  exact List.getElem_mem _

theorem perm_reverse3 {α : Type} (a b c : α) : [a, b, c].Perm [c, b, a] :=
  List.reverse_perm [c, b, a]

/-! ### Commutativity and the two zeros -/

namespace F64

theorem add_comm_f64 (x y : F64) : add x y = add y x := by
  cases x with
  | nan => cases y <;> rfl
  | inf s =>
    cases y with
    | nan => rfl
    | inf t =>
      simp only [add]
      by_cases h : s = t
      · subst h; rfl
      · have h' : ¬ t = s := fun h' => h h'.symm
        simp [h, h']
    | fin t m e => rfl
  | fin s m e =>
    cases y with
    | nan => rfl
    | inf t => rfl
    | fin t m' e' =>
      simp only [add]
      rw [min_comm e e', Int.add_comm (signed s _) (signed t _), Bool.and_comm s t]

theorem add_zero_canonical (s s' : Bool) (m : Nat) (e : Int) (hm : 0 < m)
    (hc : Canonical m e) : add (fin s m e) (fin s' 0 (-1074)) = fin s m e := by
  have he : -1074 ≤ e := hc.2.1
  have hmin : min e (-1074) = -1074 := by omega
  have hj : (e - -1074).toNat = (e + 1074).toNat := by congr 1
  have hpos : 0 < m * 2 ^ (e + 1074).toNat := by positivity
  simp only [add, hmin, hj, sub_self, Int.toNat_zero, pow_zero, mul_one, zero_mul]
  have hb : signed s' 0 = 0 := by cases s' <;> simp [signed]
  rw [hb, add_zero]
  have hne : signed s (m * 2 ^ (e + 1074).toNat) ≠ 0 := by
    cases s <;> simp [signed] <;> omega
  have hlt : decide (signed s (m * 2 ^ (e + 1074).toNat) < 0) = s := by
    cases s
    · simp [signed]
    · simp only [signed, if_true, decide_eq_true_eq]
      have : (0 : Int) < ((m * 2 ^ (e + 1074).toNat : Nat) : Int) := by exact_mod_cast hpos
      omega
  have hab : (signed s (m * 2 ^ (e + 1074).toNat)).natAbs = m * 2 ^ (e + 1074).toNat := by
    cases s
    · simp only [signed, Bool.false_eq_true, if_false]
      exact Int.natAbs_ofNat _
    · simp only [signed, if_true, Int.natAbs_neg]
      exact Int.natAbs_ofNat _
  rw [if_neg hne, hlt, hab]
  have hE : (-1074 : Int) = e - (((e + 1074).toNat : Nat) : Int) := by omega
  rw [hE]
  exact roundDyadic_up s m (e + 1074).toNat e hm hc

theorem canonical_zero (e : Int) (hc : Canonical 0 e) : e = -1074 := by
  obtain ⟨_, _, _, h⟩ := hc
  rcases h with h | h
  · exact absurd h (by norm_num)
  · exact h

theorem zero_add_wf (x : F64) (hx : WF x) (hn : x ≠ fin true 0 (-1074)) :
    add zero x = x := by
  cases x with
  | nan => rfl
  | inf s => rfl
  | fin s m e =>
    by_cases hm : m = 0
    · subst hm
      have he := canonical_zero e hx
      subst he
      cases s
      · decide
      · exact absurd rfl hn
    · rw [add_comm_f64]
      exact add_zero_canonical s false m e (by omega) hx

theorem negzero_add_wf (x : F64) (hx : WF x) (hn : x ≠ fin true 0 (-1074)) :
    add (fin true 0 (-1074)) x = x := by
  cases x with
  | nan => rfl
  | inf s => rfl
  | fin s m e =>
    by_cases hm : m = 0
    · subst hm
      have he := canonical_zero e hx
      subst he
      cases s
      · decide
      · exact absurd rfl hn
    · rw [add_comm_f64]
      exact add_zero_canonical s true m e (by omega) hx

theorem zero_add_add (a b : F64) (ha : WF a) (hb : WF b)
    (h : ¬ (a = fin true 0 (-1074) ∧ b = fin true 0 (-1074))) :
    add (add zero a) b = add a b := by
  by_cases h1 : a = fin true 0 (-1074)
  · subst h1
    have h2 : b ≠ fin true 0 (-1074) := fun h2 => h ⟨rfl, h2⟩
    have h3 : add zero (fin true 0 (-1074)) = zero := by decide
    rw [h3, zero_add_wf b hb h2, negzero_add_wf b hb h2]
  · rw [zero_add_wf a ha h1]

end F64

theorem sumFrom_pair (a b : F64) (ha : WF a) (hb : WF b) :
    sumFrom F64.zero [a, b] = sumFrom F64.zero [b, a] := by
  by_cases h : a = fin true 0 (-1074) ∧ b = fin true 0 (-1074)
  · rw [h.1, h.2]
  · have h' : ¬ (b = fin true 0 (-1074) ∧ a = fin true 0 (-1074)) := fun h' => h ⟨h'.2, h'.1⟩
    show F64.add (F64.add F64.zero a) b = F64.add (F64.add F64.zero b) a
    rw [zero_add_add a b ha hb h, zero_add_add b a hb ha h', add_comm_f64]

theorem sumFrom_perm_le_two (rs rs' : List F64) (hp : rs.Perm rs') (hl : rs.length ≤ 2)
    (hwf : ∀ r ∈ rs, WF r) : sumFrom F64.zero rs = sumFrom F64.zero rs' := by
  match rs, hp, hl, hwf with
  | [], hp, _, _ =>
    have : rs' = [] := List.Perm.eq_nil hp.symm
    rw [this]
  | [a], hp, _, _ =>
    have : rs' = [a] := List.perm_singleton.mp hp.symm
    rw [this]
  | [a, b], hp, _, hwf =>
    have ha : WF a := hwf a (by simp)
    have hb : WF b := hwf b (by simp)
    have hlen : rs'.length = 2 := by simpa using hp.length_eq.symm
    match rs', hp, hlen with
    | [c, d], hp, _ =>
      have hc : c ∈ [a, b] := hp.symm.subset (by simp)
      simp only [List.mem_cons, List.mem_singleton, List.not_mem_nil, or_false] at hc
      rcases hc with rfl | rfl
      · have : [b].Perm [d] := (List.perm_cons c).mp hp
        have hd : d = b := by simpa using (List.perm_singleton.mp this.symm)
        rw [hd]
      · have h1 : [c, a].Perm [c, d] := (List.Perm.swap a c []).trans hp
        have : [a].Perm [d] := (List.perm_cons c).mp h1
        have hd : d = a := by simpa using (List.perm_singleton.mp this.symm)
        rw [hd]
        exact sumFrom_pair a c ha hb

/-! ### Calls whose iterations take no time outside the `select` -/

theorem readyCases_quiet (d t : Nat) (ch : Chans) (hd : d ≤ t)
    (h1 : recvReady t ch.temps = none) (h2 : recvReady t ch.errs = none) :
    readyCases d t ch = [Event.done] := by
  simp [readyCases, h1, h2, hd]

theorem timedLoop_quiet (d : Nat) (s : Sched) (hs : ∀ i, s.lag i = 0) (n i now : Nat)
    (ch : Chans) (sum p : F64) (hd : d ≤ now) (h1 : recvReady now ch.temps = none)
    (h2 : recvReady now ch.errs = none) :
    (timedLoop d s n i now ch sum p).trace = List.replicate n Event.done := by
  induction n generalizing i with
  | zero => simp [timedLoop]
  | succ n ih =>
    have hw : wake d now ch = now := wake_after_deadline d now ch hd
    have hc : selectCase d now ch (s.pick i) = Event.done := by
      unfold selectCase
      rw [readyCases_quiet d now ch hd h1 h2]
      simp
    simp only [timedLoop, hw, hc, hs, Nat.add_zero, List.replicate_succ]
    rw [ih]

theorem recvReady_none_of_lt {α : Type} (d : Nat) (q : List (Nat × α))
    (h : d ≤ headTime d q) (hne : ∀ x ∈ q, x.1 ≠ d) : recvReady d q = none := by
  cases q with
  | nil => rfl
  | cons x q =>
    obtain ⟨u, y⟩ := x
    have h1 : u ≠ d := hne (u, y) (List.mem_cons_self _ _)
    simp only [headTime] at h
    simp only [recvReady]
    rw [if_neg (by omega)]

theorem selectCase_not_done (d now : Nat) (ch : Chans) (c : Nat) (h : wake d now ch < d) :
    selectCase d (wake d now ch) ch c ≠ Event.done := by
  intro hc
  have hm := selectCase_ready d now ch c
  rw [hc] at hm
  unfold readyCases at hm
  simp only [List.mem_append, Option.mem_toList, Option.mem_def, Option.map_eq_some'] at hm
  rcases hm with (⟨v, _, hv⟩ | ⟨e, _, he⟩) | hd
  · cases hv
  · cases he
  · rw [if_neg (by omega)] at hd
    simp at hd

/-- With no time spent outside the `select` and no send at the very instant
of the deadline, the cases taken are receives first and then only the
deadline case. -/
theorem timedLoop_done_suffix (d : Nat) (s : Sched) (hs : ∀ i, s.lag i = 0) (n i now : Nat)
    (ch : Chans) (sum p : F64) (hnow : now < d)
    (ht : ∀ x ∈ ch.temps, x.1 ≠ d) (he : ∀ x ∈ ch.errs, x.1 ≠ d) :
    ∃ pre k, (timedLoop d s n i now ch sum p).trace = pre ++ List.replicate k Event.done ∧
      Event.done ∉ pre := by
  induction n generalizing i now ch sum p with
  | zero => exact ⟨[], 0, by simp [timedLoop], by simp⟩
  | succ n ih =>
    have hle : wake d now ch ≤ d := le_trans (wake_le d now ch) (by omega)
    by_cases hlt : wake d now ch < d
    · have hnd := selectCase_not_done d now ch (s.pick i) hlt
      simp only [timedLoop, hs, Nat.add_zero]
      split
      · next v hv =>
        obtain ⟨pre, k, h1, h2⟩ := ih (i + 1) (wake d now ch)
          { ch with temps := ch.temps.tail } (sum + v) (p + F64.one) hlt
          (fun x hx => ht x (List.mem_of_mem_tail hx)) he
        refine ⟨Event.temp v :: pre, k, by simp [h1], ?_⟩
        simp only [List.mem_cons, not_or]
        exact ⟨by simp, h2⟩
      · next e hv => exact ⟨[Event.err e], 0, by simp, by simp⟩
      · next hv => exact absurd hv hnd
    · have heq : wake d now ch = d := by omega
      have hmin : d ≤ headTime d ch.temps ∧ d ≤ headTime d ch.errs := by
        unfold wake at heq
        omega
      have h1 := recvReady_none_of_lt d ch.temps hmin.1 ht
      have h2 := recvReady_none_of_lt d ch.errs hmin.2 he
      have hc : selectCase d d ch (s.pick i) = Event.done := by
        unfold selectCase
        rw [readyCases_quiet d d ch (le_refl d) h1 h2]
        simp
      refine ⟨[], n + 1, ?_, by simp⟩
      simp only [timedLoop, heq, hc, hs, Nat.add_zero, List.nil_append, List.replicate_succ]
      rw [timedLoop_quiet d s hs n (i + 1) d ch sum p (le_refl d) h1 h2]

theorem headTime_sendAt {α : Type} (d t : Nat) (x : α) (q : List (Nat × α))
    (h : ∀ y ∈ q, headTime d q ≤ y.1) :
    ∀ y ∈ sendAt t x q, headTime d (sendAt t x q) ≤ y.1 := by
  cases q with
  | nil =>
    intro y hy
    simp only [sendAt, List.mem_singleton] at hy
    rw [hy]
    simp [sendAt, headTime]
  | cons z q =>
    obtain ⟨u, v⟩ := z
    intro y hy
    have hu : ∀ y ∈ (u, v) :: q, u ≤ y.1 := fun y hy => h y hy
    simp only [sendAt] at hy ⊢
    split_ifs at hy ⊢ with htu
    · simp only [headTime]
      rcases List.mem_cons.mp hy with h1 | h1
      · rw [h1]
      · exact le_trans htu (hu y h1)
    · simp only [headTime]
      rcases List.mem_cons.mp hy with h1 | h1
      · rw [h1]
      · rcases mem_sendAt _ _ _ _ h1 with h2 | h2
        · rw [h2]; simp only; omega
        · exact hu y (List.mem_cons_of_mem _ h2)

theorem mem_sendAt_self {α : Type} (t : Nat) (x : α) (q : List (Nat × α)) :
    (t, x) ∈ sendAt t x q := by
  induction q with
  | nil => simp [sendAt]
  | cons z q ih =>
    obtain ⟨u, v⟩ := z
    simp only [sendAt]
    split_ifs
    · exact List.mem_cons_self _ _
    · exact List.mem_cons_of_mem _ ih

theorem mem_sendAt_of_mem {α : Type} (t : Nat) (x : α) (q : List (Nat × α)) (y : Nat × α)
    (h : y ∈ q) : y ∈ sendAt t x q := by
  induction q with
  | nil => simp at h
  | cons z q ih =>
    obtain ⟨u, v⟩ := z
    simp only [sendAt]
    split_ifs
    · exact List.mem_cons_of_mem _ h
    · rcases List.mem_cons.mp h with h1 | h1
      · rw [h1]; exact List.mem_cons_self _ _
      · exact List.mem_cons_of_mem _ (ih h1)

theorem length_sendAt {α : Type} (t : Nat) (x : α) (q : List (Nat × α)) :
    (sendAt t x q).length = q.length + 1 := by
  induction q with
  | nil => simp [sendAt]
  | cons z q ih =>
    obtain ⟨u, v⟩ := z
    simp only [sendAt]
    split_ifs
    · simp
    · simp [ih]

theorem launch_errs_head (d : Nat) (city : GoString) (w : multyWeatherProvider) :
    ∀ y ∈ (launch city w).errs, headTime d (launch city w).errs ≤ y.1 := by
  induction w with
  | nil => simp [launch]
  | cons p w ih =>
    simp only [launch, request]
    cases hp : p city with
    | none => exact ih
    | some c =>
      cases hc : c.err with
      | none => simpa [hc] using ih
      | some e => simpa [hc] using headTime_sendAt d c.elapsed e _ ih

theorem launch_errs_of_call (city : GoString) (w : multyWeatherProvider) (p : weatherProvider)
    (hp : p ∈ w) (c : Call) (e : GoError) (h1 : p city = some c) (h2 : c.err = some e) :
    (c.elapsed, e) ∈ (launch city w).errs := by
  induction w with
  | nil => simp at hp
  | cons q w ih =>
    simp only [launch, request]
    rcases List.mem_cons.mp hp with h | h
    · subst h
      simp only [h1, h2]
      exact mem_sendAt_self _ _ _
    · have := ih h
      cases hq : q city with
      | none => exact this
      | some c' =>
        cases hc : c'.err with
        | none => simpa [hc] using this
        | some e' => simpa [hc] using mem_sendAt_of_mem _ _ _ _ this

theorem launch_length (city : GoString) (w : multyWeatherProvider) :
    (launch city w).temps.length + (launch city w).errs.length ≤ w.length := by
  induction w with
  | nil => simp [launch]
  | cons p w ih =>
    simp only [launch, request, List.length_cons]
    cases hp : p city with
    | none => simp only; omega
    | some c =>
      cases hc : c.err with
      | none => simp only [hc, length_sendAt]; omega
      | some e => simp only [hc, length_sendAt]; omega

theorem selectCase_temp (d t : Nat) (ch : Chans) (c : Nat) (v : F64)
    (h : selectCase d t ch c = Event.temp v) : ∃ u q, ch.temps = (u, v) :: q ∧ u ≤ t := by
  unfold selectCase at h
  rcases getD_mem_or (readyCases d t ch) (c % (readyCases d t ch).length) Event.done with hm | hm
  · rw [h] at hm
    unfold readyCases at hm
    simp only [List.mem_append, Option.mem_toList, Option.mem_def, Option.map_eq_some'] at hm
    rcases hm with (⟨v', hv', hvv⟩ | ⟨e', _, hee⟩) | hd
    · cases hvv
      cases hch : ch.temps with
      | nil => simp [hch, recvReady] at hv'
      | cons x q =>
        obtain ⟨u, y⟩ := x
        rw [hch] at hv'
        simp only [recvReady] at hv'
        split_ifs at hv' with hu
        cases hv'
        exact ⟨u, q, rfl, hu⟩
    · cases hee
    · split_ifs at hd
      · simp at hd
      · simp at hd
  · rw [h] at hm
    cases hm

theorem timedLoop_err_observed (d : Nat) (s : Sched) (hs : ∀ i, s.lag i = 0) (n i now : Nat)
    (ch : Chans) (sum p : F64) (hnow : now < d) (hE : headTime d ch.errs < d)
    (hc : (ch.temps.filter (fun x => decide (x.1 < d))).length < n) :
    ∃ e, Event.err e ∈ (timedLoop d s n i now ch sum p).trace := by
  induction n generalizing i now ch sum p with
  | zero => omega
  | succ n ih =>
    have hlt : wake d now ch < d := by
      unfold wake
      omega
    have hnd := selectCase_not_done d now ch (s.pick i) hlt
    simp only [timedLoop, hs, Nat.add_zero]
    split
    · next v hv =>
      obtain ⟨u, q, hq, hu⟩ := selectCase_temp _ _ _ _ _ hv
      have hf : (ch.temps.tail.filter (fun x => decide (x.1 < d))).length < n := by
        rw [hq] at hc ⊢
        have hud : u < d := by omega
        simp only [List.filter_cons, hud, decide_True, if_true, List.length_cons,
          List.tail_cons] at hc ⊢
        omega
      obtain ⟨e, he⟩ := ih (i + 1) (wake d now ch) { ch with temps := ch.temps.tail }
        (sum + v) (p + F64.one) hlt hE hf
      exact ⟨e, List.mem_cons_of_mem _ he⟩
    · next e hv => exact ⟨e, by simp⟩
    · next hv => exact absurd hv hnd

theorem perm_map_exists {α β : Type} (f : α → β) (zs : List α) (l : List β)
    (h : (zs.map f).Perm l) : ∃ zs', zs.Perm zs' ∧ l = zs'.map f := by
  generalize hm : zs.map f = l0 at h
  induction h generalizing zs with
  | nil =>
    have : zs = [] := by simpa using hm
    exact ⟨[], by rw [this], rfl⟩
  | cons x _ ih =>
    cases zs with
    | nil => simp at hm
    | cons z zs1 =>
      simp only [List.map_cons, List.cons.injEq] at hm
      obtain ⟨zs1', h1, h2⟩ := ih zs1 hm.2
      exact ⟨z :: zs1', h1.cons z, by rw [h2, ← hm.1]; rfl⟩
  | swap x y l =>
    cases zs with
    | nil => simp at hm
    | cons a zs1 =>
      cases zs1 with
      | nil => simp at hm
      | cons b zs2 =>
        simp only [List.map_cons, List.cons.injEq] at hm
        refine ⟨b :: a :: zs2, List.Perm.swap b a zs2, ?_⟩
        simp [hm.1, hm.2.1, hm.2.2]
  | trans _ _ ih1 ih2 =>
    obtain ⟨zs1, h1, h2⟩ := ih1 zs hm
    obtain ⟨zs2, h3, h4⟩ := ih2 zs1 h2.symm
    exact ⟨zs2, h1.trans h3, h4⟩

theorem sumFrom_perm_int (zs : List Int) (rs' : List F64) (hb : absSum zs < 2 ^ 53)
    (hp : (zs.map F64.ofInt).Perm rs') :
    sumFrom F64.zero (zs.map F64.ofInt) = sumFrom F64.zero rs' := by
  obtain ⟨zs', h1, h2⟩ := perm_map_exists F64.ofInt zs rs' hp
  have hb' : absSum zs' < 2 ^ 53 := by rw [← absSum_perm h1]; exact hb
  rw [h2, zero_eq_ofInt, sumFrom_ofInt zs 0 (by simpa using hb),
    sumFrom_ofInt zs' 0 (by simpa using hb'), h1.sum_eq]

/-- When every `select` is entered before the deadline, however the time
outside the `select` is spent, an error that is sent early enough is
received: the loop cannot run out of iterations and the deadline case is
never ready. -/
theorem timedLoop_err_received (d : Nat) (s : Sched) (n i now : Nat) (ch : Chans)
    (sum p : F64) (h : max now (headTime d ch.errs) + lagTotal s i n < d)
    (hc : (ch.temps.filter (fun x => decide (x.1 < d))).length < n) :
    ∃ e u, Event.err e ∈ (timedLoop d s n i now ch sum p).trace ∧ (u, e) ∈ ch.errs ∧ u < d := by
  induction n generalizing i now ch sum p with
  | zero => omega
  | succ n ih =>
    simp only [lagTotal] at h
    have hw : wake d now ch ≤ max now (headTime d ch.errs) := by
      unfold wake
      omega
    have hlt : wake d now ch < d := by omega
    have hnd := selectCase_not_done d now ch (s.pick i) hlt
    simp only [timedLoop]
    split
    · next v hv =>
      obtain ⟨u, q, hq, hu⟩ := selectCase_temp _ _ _ _ _ hv
      have hf : (ch.temps.tail.filter (fun x => decide (x.1 < d))).length < n := by
        rw [hq] at hc ⊢
        have hud : u < d := by omega
        simp only [List.filter_cons, hud, decide_True, if_true, List.length_cons,
          List.tail_cons] at hc ⊢
        omega
      obtain ⟨e, u', he, hu', hud'⟩ := ih (i + 1) (wake d now ch + s.lag i)
        { ch with temps := ch.temps.tail } (sum + v) (p + F64.one) (by simp only; omega) hf
      exact ⟨e, u', List.mem_cons_of_mem _ he, hu', hud'⟩
    · next e hv =>
      obtain ⟨u, hu, hut⟩ := selectCase_err _ _ _ _ _ hv
      exact ⟨e, u, by simp, hu, by omega⟩
    · next hv => exact absurd hv hnd

theorem timedLoop_events (d : Nat) (s : Sched) (hs : ∀ i, s.lag i = 0) (n i now : Nat)
    (ch : Chans) (sum p : F64) (hnow : now ≤ d) :
    ∀ ev ∈ (timedLoop d s n i now ch sum p).trace,
      ev = Event.done ∨ (∃ x ∈ ch.temps, x.1 ≤ d ∧ ev = Event.temp x.2) ∨
        (∃ x ∈ ch.errs, x.1 ≤ d ∧ ev = Event.err x.2) := by
  induction n generalizing i now ch sum p with
  | zero => simp [timedLoop]
  | succ n ih =>
    have hle : wake d now ch ≤ d := le_trans (wake_le d now ch) (by omega)
    intro ev hev
    simp only [timedLoop, hs, Nat.add_zero] at hev
    split at hev
    · next v hv =>
      obtain ⟨u, q, hq, hu⟩ := selectCase_temp _ _ _ _ _ hv
      rcases List.mem_cons.mp hev with h1 | h1
      · right; left
        exact ⟨(u, v), by rw [hq]; exact List.mem_cons_self _ _, by simp only; omega, h1⟩
      · rcases ih (i + 1) (wake d now ch) { ch with temps := ch.temps.tail } (sum + v)
          (p + F64.one) hle ev h1 with h2 | ⟨x, hx, h2⟩ | h2
        · left; exact h2
        · right; left
          exact ⟨x, List.mem_of_mem_tail hx, h2⟩
        · right; right; exact h2
    · next e hv =>
      obtain ⟨u, hu, hut⟩ := selectCase_err _ _ _ _ _ hv
      have h1 : ev = Event.err e := by simpa using hev
      right; right
      exact ⟨(u, e), hu, by simp only; omega, h1⟩
    · next hv =>
      rcases List.mem_cons.mp hev with h1 | h1
      · left; exact h1
      · exact ih (i + 1) (wake d now ch) ch sum p hle ev h1

theorem weatherUnderground_elapsed (up : Upstream) (w : weatherUnderground)
    (city : GoString) (c : Call) (h : weatherUnderground.temperature up w city = some c) :
    10 * Second ≤ c.elapsed := by
  unfold weatherUnderground.temperature at h
  split at h
  · cases h
  · cases h
    simp only
    omega
  · split at h
    · cases h
      simp only
      omega
    · cases h
      simp only
      omega

/-! ## Claims -/

/-- C1, as the code has it: with zero providers the loop body never runs and
the call returns a nil error with the value `0/0`, a NaN, at time 0. -/
theorem temperature_no_providers (city : GoString) (s : Sched) :
    (multyWeatherProvider.temperature [] city s).ret = (F64.nan, none) ∧
      (multyWeatherProvider.temperature [] city s).trace = [] ∧
      (multyWeatherProvider.temperature [] city s).finish = 0 := by
  refine ⟨?_, rfl, rfl⟩
  simp only [multyWeatherProvider.temperature, List.length_nil, timedLoop]
  decide

/-- C1 refuted as stated: for zero providers the call does not fail; the
returned error is nil and the value is NaN. -/
theorem temperature_no_providers_returns_nil :
    (multyWeatherProvider.temperature [] chisinau promptly).ret.2 = none ∧
      (multyWeatherProvider.temperature [] chisinau promptly).ret.1.isNaN = true := by
  decide

/-- C3 refuted as stated: A answers 10.0 after 998 ms and B reports an error
after 999 ms, before the deadline. The loop spends two milliseconds after
receiving the reading, enters its second `select` at the deadline with both
the `errs` case and the deadline case ready, and takes the deadline case: the
call returns 10.0 with a nil error, not B's error. -/
theorem temperature_misses_early_error :
    fails 999 ⟨"no route"⟩ chisinau = some ⟨999000000, F64.zero, some ⟨"no route"⟩⟩ ∧
    999000000 < timeout ∧
    (multyWeatherProvider.temperature [answers 998 (ofNat 10), fails 999 ⟨"no route"⟩]
      chisinau lateLoop).trace = [Event.temp (ofNat 10), Event.done] ∧
    (multyWeatherProvider.temperature [answers 998 (ofNat 10), fails 999 ⟨"no route"⟩]
      chisinau lateLoop).ret = (ofNat 10, none) := by
  decide

/-- C3, as the code has it, for every `N` (so for `N ≥ 2`) and every
schedule. First: an error that the loop receives is returned exactly, with
the number 0, whatever readings were summed before, and it is the error some
provider of `w` returned. Second: when some provider reports an error so
early that its report time plus the time the `N` iterations spend outside
the `select` is below the deadline, the loop does receive an error, and the
call returns it with the number 0; it is an error a provider of `w` reported
before the deadline. -/
theorem temperature_first_error (w : multyWeatherProvider) (city : GoString) (s : Sched) :
    (∀ e, Event.err e ∈ (multyWeatherProvider.temperature w city s).trace →
      (multyWeatherProvider.temperature w city s).ret = (F64.zero, some e) ∧
        ∃ p ∈ w, ∃ c, p city = some c ∧ c.err = some e) ∧
    ((∃ p ∈ w, ∃ c e, p city = some c ∧ c.err = some e ∧
        c.elapsed + lagTotal s 0 w.length < timeout) →
      ∃ e, Event.err e ∈ (multyWeatherProvider.temperature w city s).trace ∧
        (multyWeatherProvider.temperature w city s).ret = (F64.zero, some e) ∧
        ∃ p ∈ w, ∃ c, p city = some c ∧ c.err = some e ∧ c.elapsed < timeout) := by
  constructor
  · intro e h
    obtain ⟨h1, u, h2⟩ := timedLoop_err_mem timeout s w.length 0 0 (launch city w) F64.zero
      F64.zero e h
    obtain ⟨p, hp, c, hc, he, _⟩ := launch_errs_mem city w (u, e) h2
    exact ⟨h1, p, hp, c, hc, he⟩
  · rintro ⟨p, hp, c, e0, h1, h2, h3⟩
    have hmem := launch_errs_of_call city w p hp c e0 h1 h2
    have hhead : headTime timeout (launch city w).errs ≤ c.elapsed :=
      launch_errs_head timeout city w _ hmem
    have hlen := launch_length city w
    have hpos : 0 < (launch city w).errs.length := List.length_pos_of_mem hmem
    have hfil : ((launch city w).temps.filter (fun x => decide (x.1 < timeout))).length
        < w.length :=
      lt_of_le_of_lt (List.length_filter_le _ _) (by omega)
    obtain ⟨e, u, he, hu, hud⟩ := timedLoop_err_received timeout s w.length 0 0
      (launch city w) F64.zero F64.zero (by omega) hfil
    obtain ⟨hr, _⟩ := timedLoop_err_mem timeout s w.length 0 0 (launch city w) F64.zero
      F64.zero e he
    obtain ⟨q, hq, c', hc', he', hel⟩ := launch_errs_mem city w (u, e) hu
    exact ⟨e, he, hr, q, hq, c', hc', he', by simp only at hel; omega⟩

/-- C3 with two providers: a reading of 10.0 arrives after 100 ms, the error
after 200 ms; the error is received and returned with the number 0. -/
theorem temperature_first_error_witness :
    (multyWeatherProvider.temperature [answers 100 (ofNat 10), fails 200 ⟨"no route"⟩]
      chisinau promptly).trace = [Event.temp (ofNat 10), Event.err ⟨"no route"⟩] ∧
    (multyWeatherProvider.temperature [answers 100 (ofNat 10), fails 200 ⟨"no route"⟩]
      chisinau promptly).ret = (F64.zero, some ⟨"no route"⟩) ∧
    ∃ e, Event.err e ∈ (multyWeatherProvider.temperature
        [answers 100 (ofNat 10), fails 200 ⟨"no route"⟩] chisinau promptly).trace ∧
      (multyWeatherProvider.temperature [answers 100 (ofNat 10), fails 200 ⟨"no route"⟩]
        chisinau promptly).ret = (F64.zero, some e) :=
  ⟨by decide,
   ((temperature_first_error [answers 100 (ofNat 10), fails 200 ⟨"no route"⟩] chisinau
      promptly).1 ⟨"no route"⟩ (by decide)).1,
   ((temperature_first_error [answers 100 (ofNat 10), fails 200 ⟨"no route"⟩] chisinau
      promptly).2
      ⟨fails 200 ⟨"no route"⟩, by simp, ⟨200 * 1000000, F64.zero, some ⟨"no route"⟩⟩,
        ⟨"no route"⟩, rfl, rfl, by decide⟩).imp (fun _ h => ⟨h.1, h.2.1⟩)⟩

/-- C4 refuted as stated: A answers 10.0 after 100 ms, B answers 20.0 one
millisecond after the deadline, C never answers. The second iteration takes
the deadline branch, the third receives B's reading, and the result is 15.0
where the claim gives 10.0. -/
theorem temperature_collects_after_deadline :
    (multyWeatherProvider.temperature
        [answers 100 (ofNat 10), answers 1001 (ofNat 20), hangs] chisinau slowPrint).trace
      = [Event.temp (ofNat 10), Event.done, Event.temp (ofNat 20)] ∧
    (multyWeatherProvider.temperature
        [answers 100 (ofNat 10), answers 1001 (ofNat 20), hangs] chisinau slowPrint).ret
      = (ofNat 15, none) ∧
    (multyWeatherProvider.temperature
        [answers 100 (ofNat 10), answers 1001 (ofNat 20), hangs] chisinau slowPrint).ret
      ≠ (sumFrom F64.zero [ofNat 10] / countFrom F64.zero 1, none) := by
  decide

/-- C4, as the code has it: when every iteration after the readings takes
the deadline branch, the call returns a nil error and the quotient of the
sum by the count of exactly the readings received before. -/
theorem temperature_deadline_then_idle (w : multyWeatherProvider) (city : GoString)
    (s : Sched) (rs : List F64) (k : Nat)
    (h : (multyWeatherProvider.temperature w city s).trace =
      rs.map Event.temp ++ List.replicate k Event.done) :
    (multyWeatherProvider.temperature w city s).ret =
      (sumFrom F64.zero rs / countFrom F64.zero rs.length, none) := by
  have hr := timedLoop_ret timeout s w.length 0 0 (launch city w) F64.zero F64.zero
  unfold multyWeatherProvider.temperature at h ⊢
  rw [hr, h, selectLoop_temps_done]

/-- C4 at the spec's example: A answers 10.0 after 0.1 s, B would answer
20.0 after 5 s; the result is exactly 10.0, returned at the deadline. -/
theorem temperature_deadline_then_idle_witness :
    (multyWeatherProvider.temperature [answers 100 (ofNat 10), answers 5000 (ofNat 20)]
      chisinau promptly).ret = (ofNat 10, none) ∧
    (multyWeatherProvider.temperature [answers 100 (ofNat 10), answers 5000 (ofNat 20)]
      chisinau promptly).finish = timeout := by
  refine ⟨?_, by decide⟩
  rw [temperature_deadline_then_idle [answers 100 (ofNat 10), answers 5000 (ofNat 20)]
    chisinau promptly [ofNat 10] 1 (by decide)]
  decide

/-- C5: for every provider list, `N ≥ 1` included, whatever the providers do
(a call that never returns included), the loop runs at most `N` iterations and
the call returns no later than the deadline plus the time the iterations
spend outside the `select`; a `select` entered after the deadline returns
at once, its deadline case being ready. -/
theorem temperature_returns_by_deadline (w : multyWeatherProvider) (city : GoString)
    (s : Sched) :
    (multyWeatherProvider.temperature w city s).trace.length ≤ w.length ∧
      (multyWeatherProvider.temperature w city s).finish ≤ timeout + lagTotal s 0 w.length ∧
      ∀ (now : Nat) (ch : Chans), timeout ≤ now →
        wake timeout now ch = now ∧ Event.done ∈ readyCases timeout now ch := by
  refine ⟨timedLoop_trace_length _ _ _ _ _ _ _ _, ?_, ?_⟩
  · have := timedLoop_finish timeout s w.length 0 0 (launch city w) F64.zero F64.zero
    simpa using this
  · intro now ch h
    exact ⟨wake_after_deadline _ _ _ h, done_ready _ _ _ h⟩

/-- C5 at a provider that never returns: the call ends at the deadline. -/
theorem temperature_returns_by_deadline_witness :
    (multyWeatherProvider.temperature [hangs] chisinau promptly).finish ≤ timeout + 0 ∧
      (multyWeatherProvider.temperature [hangs] chisinau promptly).trace = [Event.done] :=
  ⟨(temperature_returns_by_deadline [hangs] chisinau promptly).2.1, by decide⟩

/-- C6 refuted as stated: the readings 0.1, 0.2, 0.3 give
0.20000000000000004 (`0x1.999999999999bp-3`) in this arrival order and
0.19999999999999998 (`0x1.9999999999999p-3`) in the reverse order. -/
theorem temperature_depends_on_arrival_order :
    [ofDecimal 1 10, ofDecimal 2 10, ofDecimal 3 10].Perm
      [ofDecimal 3 10, ofDecimal 2 10, ofDecimal 1 10] ∧
    (multyWeatherProvider.temperature
      [answers 1 (ofDecimal 1 10), answers 2 (ofDecimal 2 10), answers 3 (ofDecimal 3 10)]
      chisinau promptly).ret = (fin false 7205759403792795 (-55), none) ∧
    (multyWeatherProvider.temperature
      [answers 3 (ofDecimal 1 10), answers 2 (ofDecimal 2 10), answers 1 (ofDecimal 3 10)]
      chisinau promptly).ret = (fin false 7205759403792793 (-55), none) ∧
    (multyWeatherProvider.temperature
      [answers 1 (ofDecimal 1 10), answers 2 (ofDecimal 2 10), answers 3 (ofDecimal 3 10)]
      chisinau promptly).ret ≠
    (multyWeatherProvider.temperature
      [answers 3 (ofDecimal 1 10), answers 2 (ofDecimal 2 10), answers 1 (ofDecimal 3 10)]
      chisinau promptly).ret := by
  exact ⟨perm_reverse3 _ _ _, by decide, by decide, by decide⟩

/-- C6, as the code has it: two calls that receive the same readings in
different orders return the same value when there are at most two readings
(float64 values in canonical form), and when the readings are whole numbers
whose absolute values sum to less than `2^53`, so that no addition rounds. -/
theorem temperature_order_independent (w w' : multyWeatherProvider) (city city' : GoString)
    (s s' : Sched) (rs rs' : List F64) (hp : rs.Perm rs')
    (hex : (rs.length ≤ 2 ∧ ∀ r ∈ rs, F64.WF r) ∨
      ∃ zs : List Int, rs = zs.map F64.ofInt ∧ absSum zs < 2 ^ 53)
    (h : (multyWeatherProvider.temperature w city s).trace = rs.map Event.temp)
    (h' : (multyWeatherProvider.temperature w' city' s').trace = rs'.map Event.temp) :
    (multyWeatherProvider.temperature w city s).ret =
      (multyWeatherProvider.temperature w' city' s').ret := by
  have hr := timedLoop_ret timeout s w.length 0 0 (launch city w) F64.zero F64.zero
  have hr' := timedLoop_ret timeout s' w'.length 0 0 (launch city' w') F64.zero F64.zero
  have hsum : sumFrom F64.zero rs = sumFrom F64.zero rs' := by
    rcases hex with ⟨hl, hwf⟩ | ⟨zs, hz, hb⟩
    · exact sumFrom_perm_le_two rs rs' hp hl hwf
    · subst hz
      exact sumFrom_perm_int zs rs' hb hp
  unfold multyWeatherProvider.temperature at h h' ⊢
  rw [hr, hr', h, h', selectLoop_temps, selectLoop_temps, hsum, hp.length_eq]

/-- C6 at the readings 0.1 and 0.2 in both orders. -/
theorem temperature_order_independent_witness :
    (multyWeatherProvider.temperature
      [answers 100 (ofDecimal 1 10), answers 200 (ofDecimal 2 10)] chisinau promptly).ret =
    (multyWeatherProvider.temperature
      [answers 200 (ofDecimal 1 10), answers 100 (ofDecimal 2 10)] chisinau promptly).ret :=
  temperature_order_independent
    [answers 100 (ofDecimal 1 10), answers 200 (ofDecimal 2 10)]
    [answers 200 (ofDecimal 1 10), answers 100 (ofDecimal 2 10)] chisinau chisinau
    promptly promptly [ofDecimal 1 10, ofDecimal 2 10] [ofDecimal 2 10, ofDecimal 1 10]
    (List.Perm.swap _ _ []) (Or.inl ⟨by decide, by decide⟩) (by decide) (by decide)

/-- C7: when every iteration of a call takes the deadline branch (`N ≥ 1`
included), the call divides `0` by `0` and returns a nil error with a NaN. -/
theorem temperature_deadline_only_nan (w : multyWeatherProvider) (city : GoString)
    (s : Sched)
    (h : ∀ ev ∈ (multyWeatherProvider.temperature w city s).trace, ev = Event.done) :
    (multyWeatherProvider.temperature w city s).ret = (F64.nan, none) ∧
      (multyWeatherProvider.temperature w city s).trace.length = w.length := by
  have hr := timedLoop_ret timeout s w.length 0 0 (launch city w) F64.zero F64.zero
  have hl := timedLoop_trace_full timeout s w.length 0 0 (launch city w) F64.zero F64.zero
    (by
      intro e he
      have := h _ he
      cases this)
  unfold multyWeatherProvider.temperature at h ⊢
  refine ⟨?_, hl⟩
  rw [hr, selectLoop_all_done _ h]
  decide

/-- C7 at a single provider that never returns. -/
theorem temperature_deadline_only_nan_witness :
    (multyWeatherProvider.temperature [hangs] chisinau promptly).ret = (F64.nan, none) :=
  (temperature_deadline_only_nan [hangs] chisinau promptly (by decide)).1

/-- The sibling path of C8: `openWeatherMap.temperature` reports a body
that does not decode as the decoder's error. -/
theorem openWeatherMap_decode_error (up : Upstream) (w : openWeatherMap) (city : GoString)
    (took : Nat) (resp : Response) (e : GoError)
    (h1 : up.get (w.url city) = some (took, Except.ok resp))
    (h2 : up.decodeWeatherData resp.Body = Except.error e) :
    openWeatherMap.temperature up w city = some ⟨took, F64.zero, some e⟩ := by
  simp [openWeatherMap.temperature, h1, h2]

/-- The case of `openWeatherMap_decode_error` with an HTML body. -/
theorem openWeatherMap_decode_error_witness :
    openWeatherMap.temperature htmlPage ⟨str "key"⟩ chisinau =
      some ⟨50000000, F64.zero, some ⟨"invalid character, looking for beginning of value"⟩⟩ :=
  openWeatherMap_decode_error htmlPage ⟨str "key"⟩ chisinau 50000000 ⟨200, str "<html>"⟩
    ⟨"invalid character, looking for beginning of value"⟩ rfl rfl

/-- C8, what the code does: `weatherUnderground.temperature` answers a body
that does not decode with the value 0 and a nil error. -/
theorem weatherUnderground_decode_error (up : Upstream) (w : weatherUnderground)
    (city : GoString) (took : Nat) (resp : Response) (e : GoError)
    (h1 : up.get (w.url city) = some (took, Except.ok resp))
    (h2 : up.decodeObservation resp.Body = Except.error e) :
    weatherUnderground.temperature up w city = some ⟨10 * Second + took, F64.zero, none⟩ := by
  simp [weatherUnderground.temperature, h1, h2]

/-- C8 at an HTML body: the call succeeds with 0.0 and a nil error. -/
theorem weatherUnderground_decode_error_witness :
    weatherUnderground.temperature htmlPage ⟨str "key"⟩ chisinau =
      some ⟨10 * Second + 50000000, F64.zero, none⟩ :=
  weatherUnderground_decode_error htmlPage ⟨str "key"⟩ chisinau 50000000 ⟨200, str "<html>"⟩
    ⟨"invalid character, looking for beginning of value"⟩ rfl rfl

/-- C9 refuted as stated: a 401 response whose body decodes as JSON gives a
reading of -273.15 from `openWeatherMap` and of 0.0 from
`weatherUnderground`, each with a nil error. -/
theorem providers_accept_error_status :
    openWeatherMap.temperature unauthorized ⟨str "key"⟩ chisinau =
      some ⟨50000000, fin true 4805305618032230 (-44), none⟩ ∧
    weatherUnderground.temperature unauthorized ⟨str "key"⟩ chisinau =
      some ⟨10 * Second + 50000000, F64.zero, none⟩ := by
  decide

/-- C9, as the code has it: the status of a response is never read. For
every status, a body that decodes gives a reading with a nil error:
`Kelvin - 273.15` from `openWeatherMap`, `Celsius` from
`weatherUnderground`. -/
theorem providers_ignore_status (up : Upstream) (ow : openWeatherMap)
    (wu : weatherUnderground) (city : GoString) (took took' status status' : Nat)
    (body body' : GoString) (d : weatherData) (d' : observationData)
    (h1 : up.get (ow.url city) = some (took, Except.ok ⟨status, body⟩))
    (h2 : up.decodeWeatherData body = Except.ok d)
    (h3 : up.get (wu.url city) = some (took', Except.ok ⟨status', body'⟩))
    (h4 : up.decodeObservation body' = Except.ok d') :
    openWeatherMap.temperature up ow city =
      some ⟨took, d.Kelvin - F64.ofDecimal 27315 100, none⟩ ∧
    weatherUnderground.temperature up wu city =
      some ⟨10 * Second + took', d'.Celsius, none⟩ := by
  simp [openWeatherMap.temperature, weatherUnderground.temperature, h1, h2, h3, h4]

/-- C9 at status 500 with a body that decodes to 300 K and 27 °C. -/
theorem providers_ignore_status_witness :
    openWeatherMap.temperature
      ⟨fun _ => some (7, Except.ok ⟨500, []⟩), fun _ => Except.ok ⟨[], ofNat 300⟩,
        fun _ => Except.ok ⟨ofNat 27⟩⟩ ⟨[]⟩ chisinau =
      some ⟨7, ofNat 300 - F64.ofDecimal 27315 100, none⟩ ∧
    weatherUnderground.temperature
      ⟨fun _ => some (7, Except.ok ⟨500, []⟩), fun _ => Except.ok ⟨[], ofNat 300⟩,
        fun _ => Except.ok ⟨ofNat 27⟩⟩ ⟨[]⟩ chisinau =
      some ⟨10 * Second + 7, ofNat 27, none⟩ :=
  providers_ignore_status
    ⟨fun _ => some (7, Except.ok ⟨500, []⟩), fun _ => Except.ok ⟨[], ofNat 300⟩,
      fun _ => Except.ok ⟨ofNat 27⟩⟩ ⟨[]⟩ ⟨[]⟩ chisinau 7 7 500 500 [] [] ⟨[], ofNat 300⟩
    ⟨ofNat 27⟩ rfl rfl rfl rfl

theorem str_slash : str "/" = [47] := by decide

theorem str_weather : str "/weather/" = [47, 119, 101, 97, 116, 104, 101, 114, 47] := by
  decide

/-- C10: for every path that begins with `/weather/`, `SplitN(path, "/", 3)`
has exactly three elements, so element 2 exists, and it is the path without
its first nine bytes. -/
theorem cityOf_weather (explode : GoString → Int → List GoString) (p : GoString)
    (h : str "/weather/" <+: p) :
    (SplitN explode p (str "/") 3).length = 3 ∧ cityOf explode p = some (p.drop 9) := by
  obtain ⟨rest, rfl⟩ := h
  have hs : SplitN explode (str "/weather/" ++ rest) (str "/") 3 =
      [[], [119, 101, 97, 116, 104, 101, 114], rest] := by
    rw [str_slash, str_weather]
    have hn : ¬ ((3 : Int) < 0) := by omega
    have hlen : ¬ (3 > rest.length + 9 + 1) := by omega
    simp [SplitN, genSplit, genSplitLoop, Index, List.isPrefixOf, hn, hlen]
  rw [cityOf, hs, str_weather]
  simp

/-- C10 at `/weather/Chisinau`, at a city with further slashes and at the
empty city. -/
theorem cityOf_weather_witness :
    cityOf (fun _ _ => []) (str "/weather/Chisinau") = some (str "Chisinau") ∧
    cityOf (fun _ _ => []) (str "/weather/a/b") = some (str "a/b") ∧
    cityOf (fun _ _ => []) (str "/weather/") = some [] :=
  ⟨(cityOf_weather (fun _ _ => []) (str "/weather/Chisinau") (by decide)).2,
   (cityOf_weather (fun _ _ => []) (str "/weather/a/b") (by decide)).2,
   (cityOf_weather (fun _ _ => []) (str "/weather/") (by decide)).2⟩

/-! ## Further properties -/

/-- When the iterations take no time outside the `select` and some provider
returns an error before the deadline, the call returns an error that a
provider of `w` returned, with the number 0. -/
theorem temperature_error_before_deadline (w : multyWeatherProvider) (city : GoString)
    (s : Sched) (hs : ∀ i, s.lag i = 0)
    (h : ∃ p ∈ w, ∃ c e, p city = some c ∧ c.err = some e ∧ c.elapsed < timeout) :
    ∃ e, (multyWeatherProvider.temperature w city s).ret = (F64.zero, some e) ∧
      ∃ p ∈ w, ∃ c, p city = some c ∧ c.err = some e := by
  obtain ⟨p, hp, c, e0, h1, h2, h3⟩ := h
  have hmem := launch_errs_of_call city w p hp c e0 h1 h2
  have hhead : headTime timeout (launch city w).errs < timeout :=
    lt_of_le_of_lt (launch_errs_head timeout city w _ hmem) h3
  have hlen := launch_length city w
  have hpos : 0 < (launch city w).errs.length := List.length_pos_of_mem hmem
  have hfil : ((launch city w).temps.filter (fun x => decide (x.1 < timeout))).length
      < w.length :=
    lt_of_le_of_lt (List.length_filter_le _ _) (by omega)
  obtain ⟨e, he⟩ := timedLoop_err_observed timeout s hs w.length 0 0 (launch city w)
    F64.zero F64.zero (by decide) hhead hfil
  obtain ⟨hr, u, hu⟩ := timedLoop_err_mem timeout s w.length 0 0 (launch city w) F64.zero
    F64.zero e he
  obtain ⟨q, hq, c', hc', he', _⟩ := launch_errs_mem city w (u, e) hu
  exact ⟨e, hr, q, hq, c', hc', he'⟩

/-- The case of `temperature_error_before_deadline` with a reading after
100 ms and an error after 200 ms. -/
theorem temperature_error_before_deadline_witness :
    ∃ e, (multyWeatherProvider.temperature [answers 100 (ofNat 10), fails 200 ⟨"no route"⟩]
      chisinau promptly).ret = (F64.zero, some e) :=
  (temperature_error_before_deadline [answers 100 (ofNat 10), fails 200 ⟨"no route"⟩]
    chisinau promptly (fun _ => rfl)
    ⟨fails 200 ⟨"no route"⟩, by simp, ⟨200 * 1000000, F64.zero, some ⟨"no route"⟩⟩,
      ⟨"no route"⟩, rfl, rfl, by decide⟩).imp (fun _ h => h.1)

/-- When the iterations take no time outside the `select` and no provider
returns at the very instant of the deadline, the deadline case is final:
the cases taken are receives, then only deadline cases. -/
theorem temperature_deadline_is_final (w : multyWeatherProvider) (city : GoString)
    (s : Sched) (hs : ∀ i, s.lag i = 0)
    (h : ∀ p ∈ w, ∀ c, p city = some c → c.elapsed ≠ timeout) :
    ∃ pre k, (multyWeatherProvider.temperature w city s).trace =
        pre ++ List.replicate k Event.done ∧ Event.done ∉ pre := by
  apply timedLoop_done_suffix timeout s hs w.length 0 0 (launch city w) F64.zero F64.zero
    (by decide)
  · intro x hx
    obtain ⟨p, hp, c, hc, _, _, he⟩ := launch_temps_mem city w x hx
    rw [← he]
    exact h p hp c hc
  · intro x hx
    obtain ⟨p, hp, c, hc, _, he⟩ := launch_errs_mem city w x hx
    rw [← he]
    exact h p hp c hc

/-- The case of `temperature_deadline_is_final` with a reading after 100 ms
and a provider that never returns. -/
theorem temperature_deadline_is_final_witness :
    ∃ pre k, (multyWeatherProvider.temperature [answers 100 (ofNat 10), hangs]
      chisinau promptly).trace = pre ++ List.replicate k Event.done ∧ Event.done ∉ pre :=
  temperature_deadline_is_final [answers 100 (ofNat 10), hangs] chisinau promptly
    (fun _ => rfl) (by
      intro p hp c hc
      simp only [List.mem_cons, List.mem_singleton, List.not_mem_nil, or_false] at hp
      rcases hp with rfl | rfl
      · simp only [answers, Option.some.injEq] at hc
        rw [← hc]
        decide
      · simp [hangs] at hc)

/-- Both providers return the error of `http.Get` unchanged, with the
number 0. -/
theorem providers_report_get_error (up : Upstream) (ow : openWeatherMap)
    (wu : weatherUnderground) (city : GoString) (took took' : Nat) (e e' : GoError)
    (h1 : up.get (ow.url city) = some (took, Except.error e))
    (h2 : up.get (wu.url city) = some (took', Except.error e')) :
    openWeatherMap.temperature up ow city = some ⟨took, F64.zero, some e⟩ ∧
    weatherUnderground.temperature up wu city =
      some ⟨10 * Second + took', F64.zero, some e'⟩ := by
  simp [openWeatherMap.temperature, weatherUnderground.temperature, h1, h2]

/-- The case of `providers_report_get_error` with a refused connection. -/
theorem providers_report_get_error_witness :
    openWeatherMap.temperature
      ⟨fun _ => some (3, Except.error ⟨"connection refused"⟩), fun _ => Except.ok ⟨[], F64.zero⟩,
        fun _ => Except.ok ⟨F64.zero⟩⟩ ⟨[]⟩ chisinau =
      some ⟨3, F64.zero, some ⟨"connection refused"⟩⟩ ∧
    weatherUnderground.temperature
      ⟨fun _ => some (3, Except.error ⟨"connection refused"⟩), fun _ => Except.ok ⟨[], F64.zero⟩,
        fun _ => Except.ok ⟨F64.zero⟩⟩ ⟨[]⟩ chisinau =
      some ⟨10 * Second + 3, F64.zero, some ⟨"connection refused"⟩⟩ :=
  providers_report_get_error
    ⟨fun _ => some (3, Except.error ⟨"connection refused"⟩), fun _ => Except.ok ⟨[], F64.zero⟩,
      fun _ => Except.ok ⟨F64.zero⟩⟩ ⟨[]⟩ ⟨[]⟩ chisinau 3 3 ⟨"connection refused"⟩
    ⟨"connection refused"⟩ rfl rfl

/-- A call of `weatherUnderground.temperature` that returns takes at least
ten seconds, more than the timeout of the aggregator. -/
theorem weatherUnderground_after_timeout (up : Upstream) (w : weatherUnderground)
    (city : GoString) (c : Call) (h : weatherUnderground.temperature up w city = some c) :
    10 * Second ≤ c.elapsed ∧ timeout < c.elapsed := by
  have h10 : timeout < 10 * Second := by decide
  have := weatherUnderground_elapsed up w city c h
  omega

/-- The case of `weatherUnderground_after_timeout` with an upstream that
answers after 50 ms. -/
theorem weatherUnderground_after_timeout_witness :
    weatherUnderground.temperature unauthorized ⟨str "key"⟩ chisinau =
      some ⟨10 * Second + 50000000, F64.zero, none⟩ ∧
    timeout < 10 * Second + 50000000 :=
  ⟨by decide,
   (weatherUnderground_after_timeout unauthorized ⟨str "key"⟩ chisinau
    ⟨10 * Second + 50000000, F64.zero, none⟩ (by decide)).2⟩

/-- With the two providers of `main` and iterations that take no time outside
the `select`, the loop receives nothing from `weatherUnderground`: every
case taken is the deadline case or the outcome of `openWeatherMap`, sent
within the timeout. -/
theorem mw_receives_only_openWeatherMap (up : Upstream) (keys : APIKeys) (city : GoString)
    (s : Sched) (hs : ∀ i, s.lag i = 0) :
    ∀ ev ∈ (multyWeatherProvider.temperature (mw up keys) city s).trace,
      ev = Event.done ∨
      ∃ c, openWeatherMap.temperature up ⟨keys.Openweathermap⟩ city = some c ∧
        c.elapsed ≤ timeout ∧ ev = sentBy c := by
  intro ev hev
  have hwu : ∀ c, weatherUnderground.temperature up ⟨keys.Weatherunderground⟩ city = some c →
      timeout < c.elapsed := by
    intro c hc
    have h10 : timeout < 10 * Second := by decide
    have := weatherUnderground_elapsed up _ city c hc
    omega
  rcases timedLoop_events timeout s hs (mw up keys).length 0 0 (launch city (mw up keys))
    F64.zero F64.zero (Nat.zero_le _) ev hev with h | ⟨x, hx, hle, h⟩ | ⟨x, hx, hle, h⟩
  · left; exact h
  · right
    obtain ⟨p, hp, c, hc, herr, htemp, hel⟩ := launch_temps_mem city (mw up keys) x hx
    simp only [mw, List.mem_cons, List.mem_singleton, List.not_mem_nil, or_false] at hp
    rcases hp with rfl | rfl
    · exact ⟨c, hc, by omega, by rw [h, sentBy, herr, htemp]⟩
    · have := hwu c hc
      omega
  · right
    obtain ⟨p, hp, c, hc, herr, hel⟩ := launch_errs_mem city (mw up keys) x hx
    simp only [mw, List.mem_cons, List.mem_singleton, List.not_mem_nil, or_false] at hp
    rcases hp with rfl | rfl
    · exact ⟨c, hc, by omega, by rw [h, sentBy, herr]⟩
    · have := hwu c hc
      omega

/-- The case of `mw_receives_only_openWeatherMap` with an upstream that
answers after 50 ms: the reading received is the one of `openWeatherMap`. -/
theorem mw_receives_only_openWeatherMap_witness :
    Event.temp (fin true 4805305618032230 (-44)) = Event.done ∨
      ∃ c, openWeatherMap.temperature unauthorized ⟨str "key"⟩ chisinau = some c ∧
        c.elapsed ≤ timeout ∧ Event.temp (fin true 4805305618032230 (-44)) = sentBy c :=
  mw_receives_only_openWeatherMap unauthorized ⟨str "key", str "key"⟩ chisinau promptly
    (fun _ => rfl) (Event.temp (fin true 4805305618032230 (-44))) (by decide)

end Hello
